import Mathlib

/-!
# go-cgroup2: the `cgroup2io` package

A shallow embedding of `pkg/cgroup2io/cgroup2io.go` and the properties of its
configuration parser, value parser, device resolver and `io.max` merger.

Modelling conventions

* A Go `string` is a `List Char` (alias `Str`): a sequence of Unicode code points,
  which is what `strings.Fields`, `strings.TrimSpace` and `strings.EqualFold`
  iterate over.
* `int64` values are `Int`; the code under study does no arithmetic on them.
* A Go `(value, error)` result is a pair whose second component is `Option Error`.
* The file system is an explicit state that every operation threads through.
-/

namespace Cgroup2io

/-- A Go string, as the sequence of its code points. -/
abbrev Str := List Char

/-! ## Standard-library functions used by the package -/

/-- The predicate `unicode.IsSpace`: the Latin-1 spaces `\t \n \v \f \r`, space,
U+0085, U+00A0, and the code points with the Unicode White_Space property. -/
def isSpace (c : Char) : Bool :=
  let n := c.toNat
  (9 ≤ n && n ≤ 13) || n == 32 || n == 0x85 || n == 0xA0 || n == 0x1680 ||
  (0x2000 ≤ n && n ≤ 0x200A) || n == 0x2028 || n == 0x2029 || n == 0x202F ||
  n == 0x205F || n == 0x3000

/-- The scanning loop of `strings.FieldsFunc`: `cur` is the field being read, if any
(`start >= 0` in the Go code). A space closes the current field, any other character
opens or extends one, and the end of the string closes the last field. -/
def fieldsLoop : Str → Option Str → List Str
  | [], none => []
  | [], some w => [w]
  | c :: cs, none => if isSpace c then fieldsLoop cs none else fieldsLoop cs (some [c])
  | c :: cs, some w =>
    if isSpace c then w :: fieldsLoop cs none else fieldsLoop cs (some (w ++ [c]))

/-- The function `strings.Fields`: the maximal runs of non-space characters. -/
def Fields (s : Str) : List Str := fieldsLoop s none

/-- The function `strings.Split(s, sep)` for a one-character separator: the pieces
between the separators, one more than there are separators. -/
def Split : Str → Char → List Str
  | [], _ => [[]]
  | c :: cs, sep =>
    if c = sep then [] :: Split cs sep
    else
      match Split cs sep with
      | [] => [[c]]
      | l :: ls => (c :: l) :: ls

/-- The function `strings.Join(elems, sep)`. -/
def Join : List Str → Str → Str
  | [], _ => []
  | [l], _ => l
  | l :: l2 :: ls, sep => l ++ sep ++ Join (l2 :: ls) sep

/-- The function `strings.TrimSpace`: drop leading and trailing white space. -/
def TrimSpace (s : Str) : Str :=
  ((s.dropWhile isSpace).reverse.dropWhile isSpace).reverse

/-- The function `strings.EqualFold(s, t)` for a pattern `t` made of the ASCII letters
of `max` and `unlimited`. None of these letters has a case variant outside ASCII, so
equality under simple case folding is equality after lower-casing `A`-`Z`. -/
def EqualFold (s t : Str) : Bool :=
  s.map Char.toLower == t.map Char.toLower

/-- The verb `%d` of `fmt.Sprintf` on a signed integer: a minus sign for negative
values, then the decimal digits. -/
def formatInt (v : Int) : Str :=
  match v with
  | Int.ofNat n => Nat.toDigits 10 n
  | Int.negSucc n => '-' :: Nat.toDigits 10 (n + 1)

/-- The verb `%d` of `fmt.Sprintf` on an unsigned integer. -/
def formatNat (n : Nat) : Str := Nat.toDigits 10 n

/-! ## Data model -/

/-- The constant `MaxInt64Value = math.MaxInt64`, the value that stands for "max". -/
def MaxInt64Value : Int := 9223372036854775807

/-- The struct `QuotaConfig`: throttling parameters for a list of devices. A field
that the JSON input omits holds the zero value of its type (the empty string, the
empty list). -/
structure QuotaConfig where
  Devices : List Str
  ThrottleReadIOPS : Str
  ThrottleWriteIOPS : Str
  ThrottleReadBps : Str
  ThrottleWriteBps : Str
  deriving DecidableEq, Repr

/-- The struct `Config`. The Go map `Classes` is the list of its entries in the order
in which a `range` loop visits them. -/
structure Config where
  Classes : List (Str × List QuotaConfig)
  deriving DecidableEq, Repr

/-- The errors the package returns, one constructor per `fmt.Errorf` call site (the
wrapped cause is kept where the message wraps one). -/
inductive Error where
  /-- The message "error parsing JSON". -/
  | jsonSyntax
  /-- The message "no class configurations found in JSON". -/
  | noClasses
  /-- The message "no quota configurations found in class". -/
  | noQuotas (className : Str)
  /-- The message "devices list cannot be empty in class[index]". -/
  | noDevices (className : Str) (index : Nat)
  /-- The message "empty value not allowed". -/
  | emptyValue
  /-- The message "failed to parse value". -/
  | badQuantity (value : Str)
  /-- The message "failed to get device info for". -/
  | deviceInfo (devicePath : Str)
  /-- The message "failed to get device numbers for". -/
  | deviceNumbers (device : Str) (cause : Error)
  /-- The message "error parsing FIELD in class[index]". -/
  | throttleField (field : Str) (className : Str) (index : Nat) (cause : Error)
  /-- The message "cgroup path does not exist". -/
  | cgroupMissing (cgroupPath : Str)
  /-- The message "failed to read" the control file. -/
  | readFailed (cgroupPath : Str)
  /-- The error of `os.WriteFile` on the control file. -/
  | writeFailed (cgroupPath : Str)
  deriving DecidableEq, Repr

/-- The outcome of `os.Stat` on a path: the raw device number `Rdev` of the file it
names (a `uint64`), the error for which `os.IsNotExist` holds, or another error. -/
inductive StatResult where
  | info (rdev : Nat)
  | notExist
  | failed
  deriving DecidableEq, Repr

/-- The part of the file system the package touches.
`stat p` is what `os.Stat(p)` returns. `ioMax p` is the content `os.ReadFile` returns
for the control file `filepath.Join(p, "io.max")` of the cgroup directory `p`, or
`none` when the read fails. `ioMaxWritable p` tells whether `os.WriteFile` can open
that control file for writing. -/
structure FileSystem where
  stat : Str → StatResult
  ioMax : Str → Option Str
  ioMaxWritable : Str → Bool

/-- The call `os.WriteFile(filepath.Join(cgroupPath, "io.max"), data, 0)`: replaces the
whole content of the control file, or fails and leaves it as it was. -/
def WriteFile (fs : FileSystem) (cgroupPath data : Str) : Option Error × FileSystem :=
  if fs.ioMaxWritable cgroupPath then
    (none, { fs with ioMax := fun p => if p = cgroupPath then some data else fs.ioMax p })
  else
    (some (Error.writeFailed cgroupPath), fs)

/-! ## ParseConfig -/

/-- The four "apply defaults" statements of `ParseConfig` on one quota entry. -/
def applyDefaults (q : QuotaConfig) : QuotaConfig :=
  let q := if q.ThrottleReadIOPS = [] then { q with ThrottleReadIOPS := "max".toList } else q
  let q := if q.ThrottleWriteIOPS = [] then { q with ThrottleWriteIOPS := "max".toList } else q
  let q := if q.ThrottleReadBps = [] then { q with ThrottleReadBps := "max".toList } else q
  let q := if q.ThrottleWriteBps = [] then { q with ThrottleWriteBps := "max".toList } else q
  q

/-- The inner loop of `ParseConfig` over the quota entries of one class, from index `i`
on: the first entry with an empty device list ends the parse with an error. -/
def defaultQuotas (className : Str) : Nat → List QuotaConfig → Except Error (List QuotaConfig)
  | _, [] => Except.ok []
  | i, q :: qs =>
    if q.Devices.length = 0 then Except.error (Error.noDevices className i)
    else
      match defaultQuotas className (i + 1) qs with
      | Except.error e => Except.error e
      | Except.ok qs1 => Except.ok (applyDefaults q :: qs1)

/-- The outer loop of `ParseConfig` over the classes. -/
def defaultClasses : List (Str × List QuotaConfig) → Except Error (List (Str × List QuotaConfig))
  | [] => Except.ok []
  | (className, quotaConfigs) :: rest =>
    if quotaConfigs.length = 0 then Except.error (Error.noQuotas className)
    else
      match defaultQuotas className 0 quotaConfigs with
      | Except.error e => Except.error e
      | Except.ok qs1 =>
        match defaultClasses rest with
        | Except.error e => Except.error e
        | Except.ok rest1 => Except.ok ((className, qs1) :: rest1)

/-- The function `ParseConfig`. Its argument is the outcome of `json.Unmarshal` on the
input bytes: `none` for malformed JSON, otherwise the decoded `Config`. -/
def ParseConfig (decoded : Option Config) : Except Error Config :=
  match decoded with
  | none => Except.error Error.jsonSyntax
  | some config =>
    if config.Classes.length = 0 then Except.error Error.noClasses
    else
      match defaultClasses config.Classes with
      | Except.error e => Except.error e
      | Except.ok classes => Except.ok { Classes := classes }

/-- The relation between a throttle field of the input and the same field after
defaulting: an empty field becomes "max", a non-empty field is kept, and the result is
never empty. -/
def fieldDefaulted (input output : Str) : Prop :=
  output ≠ [] ∧ (input = [] → output = "max".toList) ∧ (input ≠ [] → output = input)

/-- The relation between a quota entry of the input and the entry at the same position
of the parsed configuration: same devices, each throttle field defaulted. -/
def entryDefaulted (input output : QuotaConfig) : Prop :=
  output.Devices = input.Devices ∧
  fieldDefaulted input.ThrottleReadIOPS output.ThrottleReadIOPS ∧
  fieldDefaulted input.ThrottleWriteIOPS output.ThrottleWriteIOPS ∧
  fieldDefaulted input.ThrottleReadBps output.ThrottleReadBps ∧
  fieldDefaulted input.ThrottleWriteBps output.ThrottleWriteBps

/-! ## ParseValue -/

/-- The quantity parser of the Kubernetes resource package as the package uses it:
`resource.ParseQuantity` followed by `Quantity.Value`, `none` when `ParseQuantity`
returns an error. It is a parameter of everything that parses values. -/
abbrev QuantityParser := Str → Option Int

/-- The function `ParseValue`. -/
def ParseValue (parseQuantity : QuantityParser) (value : Str) : Int × Option Error :=
  let value := TrimSpace value
  if value = [] then (0, some Error.emptyValue)
  else if EqualFold value "max".toList || EqualFold value "unlimited".toList then
    (MaxInt64Value, none)
  else
    match parseQuantity value with
    | none => (0, some (Error.badQuantity value))
    | some v => (v, none)

/-- Modelled from the spec: the multiplier of a quantity suffix (k = 10^3, M = 10^6,
G = 10^9, Ki = 2^10, Mi = 2^20, Gi = 2^30, no suffix = 1). The table belongs to the
external quantity parser, which is not among the sources. -/
def suffixMultiplier (suffix : Str) : Option Nat :=
  if suffix = [] then some 1
  else if suffix = "k".toList then some (10 ^ 3)
  else if suffix = "M".toList then some (10 ^ 6)
  else if suffix = "G".toList then some (10 ^ 9)
  else if suffix = "Ki".toList then some (2 ^ 10)
  else if suffix = "Mi".toList then some (2 ^ 20)
  else if suffix = "Gi".toList then some (2 ^ 30)
  else none

/-- The number a string of decimal digits denotes. -/
def digitsValue (ds : Str) : Nat :=
  ds.foldl (fun acc c => 10 * acc + (c.toNat - 48)) 0

/-- Modelled from the spec: the external quantity parser on the unsigned fragment the
spec describes, a non-empty run of decimal digits followed by one of the suffixes of
`suffixMultiplier`, with the product returned when it fits a signed 64-bit integer.
Every other input is reported as rejected; signs, fractions and exponents are outside
this fragment. -/
def specQuantity : QuantityParser := fun s =>
  let num := s.takeWhile Char.isDigit
  let suffix := s.dropWhile Char.isDigit
  if num = [] then none
  else
    match suffixMultiplier suffix with
    | none => none
    | some m =>
      if (digitsValue num * m : Int) ≤ MaxInt64Value then some (digitsValue num * m : Nat)
      else none

/-! ## GetDeviceNumbers -/

/-- The function `GetDeviceNumbers`: major is `Rdev >> 8`, minor is `Rdev & 0xFF`, and
the result is formatted with `"%d:%d"`. -/
def GetDeviceNumbers (fs : FileSystem) (devicePath : Str) : Str × Option Error :=
  match fs.stat devicePath with
  | StatResult.info rdev =>
    let major := rdev >>> 8
    let minor := rdev &&& 0xFF
    (formatNat major ++ ":".toList ++ formatNat minor, none)
  | _ => ([], some (Error.deviceInfo devicePath))

/-! ## ApplyDeviceIOLimits -/

/-- The function `formatMaxOrValue`. -/
def formatMaxOrValue (value : Int) : Str :=
  if value = MaxInt64Value then "max".toList else formatInt value

/-- The line `newLimit` that `ApplyDeviceIOLimits` formats with
`"%s rbps=%s wbps=%s riops=%s wiops=%s"`. -/
def newLimit (deviceNumbers : Str) (readBps writeBps readIOPS writeIOPS : Int) : Str :=
  let rbpsStr := formatMaxOrValue readBps
  let wbpsStr := formatMaxOrValue writeBps
  let riopsStr := formatMaxOrValue readIOPS
  let wiopsStr := formatMaxOrValue writeIOPS
  deviceNumbers ++ " rbps=".toList ++ rbpsStr ++ " wbps=".toList ++ wbpsStr ++
    " riops=".toList ++ riopsStr ++ " wiops=".toList ++ wiopsStr

/-- The test `len(parts) > 0 && parts[0] == deviceNumbers` on `parts := strings.Fields(line)`. -/
def firstFieldIs (deviceNumbers line : Str) : Bool :=
  match Fields line with
  | [] => false
  | p :: _ => p == deviceNumbers

/-- One iteration of the loop over `lines`; the state is `(newLines, deviceFound)`. -/
def mergeStep (deviceNumbers limit : Str) (st : List Str × Bool) (line : Str) :
    List Str × Bool :=
  if line = [] then st
  else if firstFieldIs deviceNumbers line then (st.1 ++ [limit], true)
  else (st.1 ++ [line], st.2)

/-- The slice `newLines` that `ApplyDeviceIOLimits` joins: the loop over the lines of
the content, then the append when the device was not found. -/
def mergedLines (deviceNumbers limit content : Str) : List Str :=
  let lines := Split content '\n'
  let st := lines.foldl (mergeStep deviceNumbers limit) ([], false)
  if !st.2 then st.1 ++ [limit] else st.1

/-- The bytes `ApplyDeviceIOLimits` passes to `os.WriteFile`. -/
def mergedContent (deviceNumbers : Str) (readBps writeBps readIOPS writeIOPS : Int)
    (content : Str) : Str :=
  Join (mergedLines deviceNumbers (newLimit deviceNumbers readBps writeBps readIOPS writeIOPS)
    content) "\n".toList

/-- The function `ApplyDeviceIOLimits`: read the control file, merge, write it back. -/
def ApplyDeviceIOLimits (fs : FileSystem) (cgroupPath deviceNumbers : Str)
    (readBps writeBps readIOPS writeIOPS : Int) : Option Error × FileSystem :=
  match fs.ioMax cgroupPath with
  | none => (some (Error.readFailed cgroupPath), fs)
  | some content =>
    WriteFile fs cgroupPath
      (mergedContent deviceNumbers readBps writeBps readIOPS writeIOPS content)

/-- The line the loop emits for a non-empty input line. -/
def replaceLine (d limit line : Str) : Str :=
  if firstFieldIs d line then limit else line

/-- The first whitespace-delimited field of a line, if it has one. -/
def firstField (line : Str) : Option Str := (Fields line).head?

/-- The device identifiers of a control-file content: the first fields of its lines,
in order, one occurrence per line that has a field. -/
def deviceIds (content : Str) : List Str := (Split content '\n').filterMap firstField

/-- A file system for examples: every path exists, the device files have the raw
device number `rdev`, and every control file holds `content` and can be written. -/
def exampleFS (rdev : Nat) (content : Str) : FileSystem :=
  { stat := fun _ => StatResult.info rdev
    ioMax := fun _ => some content
    ioMaxWritable := fun _ => true }

/-- A control-file content for examples: two devices, a final newline. -/
def exampleContent : Str :=
  "8:0 rbps=max wbps=max riops=max wiops=max\n9:0 rbps=1 wbps=2 riops=3 wiops=4\n".toList

/-- A configuration for examples: one class, one entry for one device, read bandwidth
limited to "50M", the other three throttle fields omitted. -/
def exampleConfig : Config :=
  { Classes := [("example".toList,
      [{ Devices := ["/dev/sda".toList], ThrottleReadIOPS := [], ThrottleWriteIOPS := [],
         ThrottleReadBps := "50M".toList, ThrottleWriteBps := [] }])] }

/-! ## ApplyIOLimits -/

/-- The loop of `ApplyIOLimits` over the devices of one quota entry. -/
def applyDevices (parseQuantity : QuantityParser) (cgroupPath className : Str) (i : Nat)
    (quota : QuotaConfig) : List Str → FileSystem → Option Error × FileSystem
  | [], fs => (none, fs)
  | device :: rest, fs =>
    match GetDeviceNumbers fs device with
    | (_, some err) => (some (Error.deviceNumbers device err), fs)
    | (devNumbers, none) =>
      match ParseValue parseQuantity quota.ThrottleReadBps with
      | (_, some err) =>
        (some (Error.throttleField "ThrottleReadBps".toList className i err), fs)
      | (readBps, none) =>
        match ParseValue parseQuantity quota.ThrottleWriteBps with
        | (_, some err) =>
          (some (Error.throttleField "ThrottleWriteBps".toList className i err), fs)
        | (writeBps, none) =>
          match ParseValue parseQuantity quota.ThrottleReadIOPS with
          | (_, some err) =>
            (some (Error.throttleField "ThrottleReadIOPS".toList className i err), fs)
          | (readIOPS, none) =>
            match ParseValue parseQuantity quota.ThrottleWriteIOPS with
            | (_, some err) =>
              (some (Error.throttleField "ThrottleWriteIOPS".toList className i err), fs)
            | (writeIOPS, none) =>
              match ApplyDeviceIOLimits fs cgroupPath devNumbers readBps writeBps readIOPS
                  writeIOPS with
              | (some err, fs1) => (some err, fs1)
              | (none, fs1) =>
                applyDevices parseQuantity cgroupPath className i quota rest fs1

/-- The loop of `ApplyIOLimits` over the quota entries of one class, from index `i` on. -/
def applyQuotas (parseQuantity : QuantityParser) (cgroupPath className : Str) :
    Nat → List QuotaConfig → FileSystem → Option Error × FileSystem
  | _, [], fs => (none, fs)
  | i, quota :: rest, fs =>
    match applyDevices parseQuantity cgroupPath className i quota quota.Devices fs with
    | (some err, fs1) => (some err, fs1)
    | (none, fs1) => applyQuotas parseQuantity cgroupPath className (i + 1) rest fs1

/-- The loop of `ApplyIOLimits` over the classes. -/
def applyClasses (parseQuantity : QuantityParser) (cgroupPath : Str) :
    List (Str × List QuotaConfig) → FileSystem → Option Error × FileSystem
  | [], fs => (none, fs)
  | (className, quotaConfigs) :: rest, fs =>
    match applyQuotas parseQuantity cgroupPath className 0 quotaConfigs fs with
    | (some err, fs1) => (some err, fs1)
    | (none, fs1) => applyClasses parseQuantity cgroupPath rest fs1

/-- The function `ApplyIOLimits`. -/
def ApplyIOLimits (parseQuantity : QuantityParser) (fs : FileSystem) (cgroupPath : Str)
    (config : Config) : Option Error × FileSystem :=
  if fs.stat cgroupPath = StatResult.notExist then (some (Error.cgroupMissing cgroupPath), fs)
  else applyClasses parseQuantity cgroupPath config.Classes fs

/-! ## The limit applier as a fold over devices -/

/-- The canonical limit of the data model: a device identifier and the four resolved
quantities, the arguments of one `ApplyDeviceIOLimits` call. -/
structure Limit where
  deviceNumbers : Str
  readBps : Int
  writeBps : Int
  readIOPS : Int
  writeIOPS : Int
  deriving DecidableEq, Repr

/-- The content `ApplyDeviceIOLimits` writes for one canonical limit. -/
def mergeLimit (l : Limit) (content : Str) : Str :=
  mergedContent l.deviceNumbers l.readBps l.writeBps l.readIOPS l.writeIOPS content

/-- Merging a list of canonical limits into a content, one after the other. -/
def mergeAll (limits : List Limit) (content : Str) : Str :=
  limits.foldl (fun c l => mergeLimit l c) content

/-- The devices of a class in declaration order: the entries in order from index `i`
on, the devices of each entry in order, every device with its entry and its index. -/
def deviceSteps : Nat → List QuotaConfig → List (Nat × QuotaConfig × Str)
  | _, [] => []
  | i, quota :: rest =>
    quota.Devices.map (fun device => (i, quota, device)) ++ deviceSteps (i + 1) rest

/-- The canonical limit of one device of an entry: the device resolves and the four
throttle values of its entry parse, or the first failure among them. -/
def resolveLimit (parseQuantity : QuantityParser) (fs : FileSystem) (className : Str)
    (step : Nat × QuotaConfig × Str) : Except Error Limit :=
  match GetDeviceNumbers fs step.2.2 with
  | (_, some err) => Except.error (Error.deviceNumbers step.2.2 err)
  | (devNumbers, none) =>
    match ParseValue parseQuantity step.2.1.ThrottleReadBps with
    | (_, some err) =>
      Except.error (Error.throttleField "ThrottleReadBps".toList className step.1 err)
    | (readBps, none) =>
      match ParseValue parseQuantity step.2.1.ThrottleWriteBps with
      | (_, some err) =>
        Except.error (Error.throttleField "ThrottleWriteBps".toList className step.1 err)
      | (writeBps, none) =>
        match ParseValue parseQuantity step.2.1.ThrottleReadIOPS with
        | (_, some err) =>
          Except.error (Error.throttleField "ThrottleReadIOPS".toList className step.1 err)
        | (readIOPS, none) =>
          match ParseValue parseQuantity step.2.1.ThrottleWriteIOPS with
          | (_, some err) =>
            Except.error (Error.throttleField "ThrottleWriteIOPS".toList className step.1 err)
          | (writeIOPS, none) =>
            Except.ok
              { deviceNumbers := devNumbers, readBps := readBps, writeBps := writeBps,
                readIOPS := readIOPS, writeIOPS := writeIOPS }

/-- The left-to-right fold of `ApplyDeviceIOLimits` over a list of devices that stops
at the first failure, of the resolution of a limit or of the merge. -/
def foldSteps (parseQuantity : QuantityParser) (cgroupPath className : Str) :
    List (Nat × QuotaConfig × Str) → FileSystem → Option Error × FileSystem
  | [], fs => (none, fs)
  | step :: rest, fs =>
    match resolveLimit parseQuantity fs className step with
    | Except.error err => (some err, fs)
    | Except.ok l =>
      match ApplyDeviceIOLimits fs cgroupPath l.deviceNumbers l.readBps l.writeBps l.readIOPS
          l.writeIOPS with
      | (some err, fs1) => (some err, fs1)
      | (none, fs1) => foldSteps parseQuantity cgroupPath className rest fs1

/-- The file system with the control file of `cgroupPath` holding `data`. -/
def setIoMax (fs : FileSystem) (cgroupPath data : Str) : FileSystem :=
  { fs with ioMax := fun p => if p = cgroupPath then some data else fs.ioMax p }

/-- The non-empty lines of a content, in order. -/
def nonEmptyLines (content : Str) : List Str :=
  (Split content '\n').filter (fun l => l ≠ [])

/-- The merge on the list of non-empty lines: replace the lines of the device, or
append the limit line when the device has none. -/
def mergeLines (d limit : Str) (lines : List Str) : List Str :=
  lines.map (replaceLine d limit) ++ (if lines.any (firstFieldIs d) then [] else [limit])

/-- A file system for examples with two block devices: "/dev/sdb" has the raw device
number 2064, every other path 2048; every control file holds `content` and can be
written. -/
def twoDeviceFS (content : Str) : FileSystem :=
  { stat := fun p => if p = "/dev/sdb".toList then StatResult.info 2064 else StatResult.info 2048
    ioMax := fun _ => some content
    ioMaxWritable := fun _ => true }

/-- A class for examples: one entry that limits the read bandwidth of `device` to
`readBps` and leaves the other three throttle fields at "max". -/
def exampleClass (className device readBps : Str) : Str × List QuotaConfig :=
  (className,
    [{ Devices := [device], ThrottleReadIOPS := "max".toList, ThrottleWriteIOPS := "max".toList,
       ThrottleReadBps := readBps, ThrottleWriteBps := "max".toList }])

/-! ## Lemmas on the string functions -/

theorem Split_ne_nil (s : Str) (sep : Char) : Split s sep ≠ [] := by
  induction s with
  | nil => simp [Split]
  | cons c cs ih =>
    unfold Split
    split_ifs
    · simp
    · cases h : Split cs sep <;> simp

theorem not_mem_of_mem_Split (s : Str) (sep : Char) :
    ∀ l ∈ Split s sep, sep ∉ l := by
  induction s with
  | nil => simp [Split]
  | cons c cs ih =>
    intro l hl
    unfold Split at hl
    split_ifs at hl with hc
    · rcases List.mem_cons.1 hl with h | h
      · simp [h]
      · exact ih l h
    · cases hs : Split cs sep with
      | nil => exact absurd hs (Split_ne_nil cs sep)
      | cons l0 ls =>
        rw [hs] at hl ih
        rcases List.mem_cons.1 hl with h | h
        · subst h
          have h0 := ih l0 (List.mem_cons_self _ _)
          intro hmem
          rcases List.mem_cons.1 hmem with h1 | h1
          · exact hc h1.symm
          · exact h0 h1
        · exact ih l (List.mem_cons_of_mem _ h)

theorem Split_of_not_mem (l : Str) (sep : Char) (h : sep ∉ l) : Split l sep = [l] := by
  induction l with
  | nil => rfl
  | cons c cs ih =>
    have hc : c ≠ sep := fun e => h (e ▸ List.mem_cons_self _ _)
    have hcs : sep ∉ cs := fun e => h (List.mem_cons_of_mem _ e)
    simp [Split, hc, ih hcs]

theorem Split_append_sep (l r : Str) (sep : Char) (h : sep ∉ l) :
    Split (l ++ sep :: r) sep = l :: Split r sep := by
  induction l with
  | nil => simp [Split]
  | cons c cs ih =>
    have hc : c ≠ sep := fun e => h (e ▸ List.mem_cons_self _ _)
    have hcs : sep ∉ cs := fun e => h (List.mem_cons_of_mem _ e)
    simp [Split, hc, ih hcs]

/-- Splitting a joined, non-empty list of newline-free lines gives the lines back. -/
theorem Split_Join (ls : List Str) (hne : ls ≠ []) (h : ∀ l ∈ ls, '\n' ∉ l) :
    Split (Join ls ['\n']) '\n' = ls := by
  induction ls with
  | nil => exact absurd rfl hne
  | cons l rest ih =>
    cases rest with
    | nil => exact Split_of_not_mem l '\n' (h l (List.mem_cons_self _ _))
    | cons l2 ls =>
      have hl : '\n' ∉ l := h l (List.mem_cons_self _ _)
      have hrest : ∀ x ∈ l2 :: ls, '\n' ∉ x := fun x hx => h x (List.mem_cons_of_mem _ hx)
      have ih1 := ih (by simp) hrest
      show Split (l ++ ['\n'] ++ Join (l2 :: ls) ['\n']) '\n' = l :: l2 :: ls
      rw [List.append_assoc, List.singleton_append, Split_append_sep l _ '\n' hl, ih1]

theorem fieldsLoop_some (s w : Str) :
    fieldsLoop s (some w) =
      (w ++ s.takeWhile (fun c => !isSpace c)) ::
        fieldsLoop (s.dropWhile (fun c => !isSpace c)) none := by
  induction s generalizing w with
  | nil => simp [fieldsLoop]
  | cons c cs ih =>
    by_cases hc : isSpace c = true
    · simp [fieldsLoop, hc, List.takeWhile, List.dropWhile]
    · simp only [Bool.not_eq_true] at hc
      simp [fieldsLoop, hc, List.takeWhile, List.dropWhile, ih]

/-- The first field of a line is a non-empty run of non-space characters. -/
theorem Fields_head_token (s p : Str) (rest : List Str) (h : Fields s = p :: rest) :
    p ≠ [] ∧ ∀ c ∈ p, isSpace c = false := by
  unfold Fields at h
  induction s with
  | nil => simp [fieldsLoop] at h
  | cons c cs ih =>
    by_cases hc : isSpace c = true
    · simp only [fieldsLoop, hc, if_true] at h
      exact ih h
    · simp only [Bool.not_eq_true] at hc
      simp only [fieldsLoop, hc, Bool.false_eq_true, if_false, fieldsLoop_some] at h
      have hp : p = [c] ++ cs.takeWhile (fun c => !isSpace c) := (List.cons.inj h).1.symm
      subst hp
      refine ⟨by simp, ?_⟩
      intro x hx
      rcases List.mem_append.1 hx with h1 | h1
      · simp at h1
        simpa [h1] using hc
      · have := List.mem_takeWhile_imp h1
        simpa using this

/-- A non-empty run of non-space characters followed by a space is the first field. -/
theorem Fields_token_space (d rest : Str) (c : Char) (hd : d ≠ [])
    (hns : ∀ x ∈ d, isSpace x = false) (hc : isSpace c = true) :
    Fields (d ++ c :: rest) = d :: Fields rest := by
  cases d with
  | nil => exact absurd rfl hd
  | cons a d1 =>
    have ha : isSpace a = false := hns a (List.mem_cons_self _ _)
    have hd1 : ∀ x ∈ d1, (!isSpace x) = true := fun x hx => by
      simp [hns x (List.mem_cons_of_mem _ hx)]
    have htake : (d1 ++ c :: rest).takeWhile (fun c => !isSpace c) = d1 := by
      rw [List.takeWhile_append_of_pos hd1]
      simp [List.takeWhile, hc]
    have hdrop : (d1 ++ c :: rest).dropWhile (fun c => !isSpace c) = c :: rest := by
      rw [List.dropWhile_append_of_pos hd1]
      simp [List.dropWhile, hc]
    show fieldsLoop (a :: (d1 ++ c :: rest)) none = (a :: d1) :: fieldsLoop rest none
    simp only [fieldsLoop, ha, Bool.false_eq_true, if_false, fieldsLoop_some, htake, hdrop, hc,
      if_true, List.singleton_append]

theorem digitChar_isDigit (k : Nat) (h : k < 10) : (Nat.digitChar k).isDigit = true := by
  interval_cases k <;> rfl

theorem toDigitsCore_isDigit (fuel n : Nat) (ds : Str) (h : ∀ c ∈ ds, c.isDigit = true) :
    ∀ c ∈ Nat.toDigitsCore 10 fuel n ds, c.isDigit = true := by
  induction fuel generalizing n ds with
  | zero => simpa [Nat.toDigitsCore] using h
  | succ f ih =>
    have hd : (Nat.digitChar (n % 10)).isDigit = true :=
      digitChar_isDigit _ (Nat.mod_lt _ (by decide))
    have hcons : ∀ c ∈ Nat.digitChar (n % 10) :: ds, c.isDigit = true := by
      intro c hc
      rcases List.mem_cons.1 hc with h1 | h1
      · rw [h1]; exact hd
      · exact h c h1
    unfold Nat.toDigitsCore
    simp only
    split_ifs
    · exact hcons
    · exact ih _ _ hcons

theorem formatNat_isDigit (n : Nat) : ∀ c ∈ formatNat n, c.isDigit = true :=
  toDigitsCore_isDigit _ _ [] (by simp)

theorem toDigitsCore_ne_nil (fuel n : Nat) (ds : Str) (h : ds ≠ [] ∨ 0 < fuel) :
    Nat.toDigitsCore 10 fuel n ds ≠ [] := by
  induction fuel generalizing n ds with
  | zero =>
    rcases h with h | h
    · simpa [Nat.toDigitsCore] using h
    · exact absurd h (by decide)
  | succ f ih =>
    unfold Nat.toDigitsCore
    simp only
    split_ifs
    · simp
    · exact ih _ _ (Or.inl (by simp))

theorem formatNat_ne_nil (n : Nat) : formatNat n ≠ [] :=
  toDigitsCore_ne_nil _ _ [] (Or.inr (Nat.succ_pos _))

theorem digit_bounds (c : Char) (h : c.isDigit = true) : 48 ≤ c.toNat ∧ c.toNat ≤ 57 := by
  simp only [Char.isDigit, Bool.and_eq_true, decide_eq_true_eq] at h
  exact ⟨h.1, h.2⟩

theorem isSpace_of_isDigit (c : Char) (h : c.isDigit = true) : isSpace c = false := by
  have h1 := digit_bounds c h
  simp only [isSpace]
  simp
  omega

/-- The characters of a formatted integer are a minus sign or decimal digits. -/
theorem formatInt_chars (v : Int) : ∀ c ∈ formatInt v, c = '-' ∨ c.isDigit = true := by
  intro c hc
  cases v with
  | ofNat n => exact Or.inr (formatNat_isDigit n c hc)
  | negSucc n =>
    rcases List.mem_cons.1 hc with h | h
    · exact Or.inl h
    · exact Or.inr (formatNat_isDigit (n + 1) c h)

theorem formatInt_ne_nil (v : Int) : formatInt v ≠ [] := by
  cases v with
  | ofNat n => exact formatNat_ne_nil n
  | negSucc n => simp [formatInt]

theorem formatInt_ne_max (v : Int) : formatInt v ≠ "max".toList := by
  intro h
  have hm : 'm' ∈ formatInt v := by rw [h]; decide
  rcases formatInt_chars v 'm' hm with h1 | h1
  · exact absurd h1 (by decide)
  · exact absurd h1 (by decide)

theorem formatMaxOrValue_noSpace (v : Int) : ∀ c ∈ formatMaxOrValue v, isSpace c = false := by
  intro c hc
  unfold formatMaxOrValue at hc
  split_ifs at hc
  · revert c
    decide
  · rcases formatInt_chars v c hc with h | h
    · rw [h]; decide
    · exact isSpace_of_isDigit c h

theorem not_newline_of_noSpace (c : Char) (h : isSpace c = false) : c ≠ '\n' := by
  intro e
  rw [e] at h
  exact absurd h (by decide)

/-- The limit line has a newline only where the device identifier has one. -/
theorem newLimit_no_newline (d : Str) (rb wb ri wi : Int) (hd : '\n' ∉ d) :
    '\n' ∉ newLimit d rb wb ri wi := by
  have hv : ∀ v : Int, '\n' ∉ formatMaxOrValue v := fun v hm =>
    not_newline_of_noSpace _ (formatMaxOrValue_noSpace v _ hm) rfl
  have h1 : '\n' ∉ " rbps=".toList := by decide
  have h2 : '\n' ∉ " wbps=".toList := by decide
  have h3 : '\n' ∉ " riops=".toList := by decide
  have h4 : '\n' ∉ " wiops=".toList := by decide
  have hrb := hv rb
  have hwb := hv wb
  have hri := hv ri
  have hwi := hv wi
  simp only [newLimit, List.mem_append]
  tauto

theorem newLimit_ne_nil (d : Str) (rb wb ri wi : Int) : newLimit d rb wb ri wi ≠ [] := by
  simp [newLimit]

theorem newLimit_eq_cons (d : Str) (rb wb ri wi : Int) :
    ∃ rest, newLimit d rb wb ri wi = d ++ ' ' :: rest := by
  refine ⟨"rbps=".toList ++ formatMaxOrValue rb ++ " wbps=".toList ++ formatMaxOrValue wb ++
    " riops=".toList ++ formatMaxOrValue ri ++ " wiops=".toList ++ formatMaxOrValue wi, ?_⟩
  simp [newLimit]

/-- The first field of the limit line of a token-shaped identifier is the identifier. -/
theorem firstFieldIs_newLimit (d : Str) (rb wb ri wi : Int) (hd : d ≠ [])
    (hns : ∀ c ∈ d, isSpace c = false) :
    firstFieldIs d (newLimit d rb wb ri wi) = true := by
  obtain ⟨rest, hrest⟩ := newLimit_eq_cons d rb wb ri wi
  simp [firstFieldIs, hrest, Fields_token_space d rest ' ' hd hns (by decide)]

/-- A line whose first field is the identifier forces the identifier to be a token. -/
theorem token_of_firstFieldIs (d line : Str) (h : firstFieldIs d line = true) :
    d ≠ [] ∧ ∀ c ∈ d, isSpace c = false := by
  unfold firstFieldIs at h
  cases hf : Fields line with
  | nil => simp [hf] at h
  | cons p rest =>
    simp only [hf, beq_iff_eq] at h
    subst h
    exact Fields_head_token line p rest hf

theorem firstFieldIs_nil (d : Str) : firstFieldIs d [] = false := rfl

/-- The loop of `ApplyDeviceIOLimits` in closed form: the non-empty lines, each one
replaced when its first field is the identifier, and the flag set when one is. -/
theorem foldl_mergeStep (d limit : Str) (lines : List Str) (acc : List Str) (b : Bool) :
    lines.foldl (mergeStep d limit) (acc, b) =
      (acc ++ (lines.filter (fun l => l ≠ [])).map (replaceLine d limit),
        b || lines.any (firstFieldIs d)) := by
  induction lines generalizing acc b with
  | nil => simp
  | cons l ls ih =>
    rw [List.foldl_cons]
    by_cases hl : l = []
    · subst hl
      simp [mergeStep, ih, firstFieldIs_nil]
    · by_cases hf : firstFieldIs d l = true
      · simp [mergeStep, hl, hf, ih, replaceLine]
      · simp only [Bool.not_eq_true] at hf
        simp [mergeStep, hl, hf, ih, replaceLine]

/-- The slice `newLines` in closed form. -/
theorem mergedLines_eq (d limit content : Str) :
    mergedLines d limit content =
      ((Split content '\n').filter (fun l => l ≠ [])).map (replaceLine d limit) ++
        (if (Split content '\n').any (firstFieldIs d) then [] else [limit]) := by
  unfold mergedLines
  simp only [foldl_mergeStep, List.nil_append, Bool.false_or]
  cases h : (Split content '\n').any (firstFieldIs d) <;> simp

theorem newline_not_mem_of_noSpace (d : Str) (hns : ∀ c ∈ d, isSpace c = false) : '\n' ∉ d :=
  fun hm => not_newline_of_noSpace _ (hns _ hm) rfl

theorem mergedLines_ne_nil (d limit content : Str) : mergedLines d limit content ≠ [] := by
  rw [mergedLines_eq]
  cases h : (Split content '\n').any (firstFieldIs d) with
  | false => simp
  | true =>
    obtain ⟨l, hl, hf⟩ := List.any_eq_true.1 h
    have hne : l ≠ [] := fun e => by rw [e, firstFieldIs_nil] at hf; exact absurd hf (by decide)
    have hmem : replaceLine d limit l ∈
        ((Split content '\n').filter (fun l => l ≠ [])).map (replaceLine d limit) :=
      List.mem_map_of_mem _ (List.mem_filter.2 ⟨hl, by simpa using hne⟩)
    intro e
    simp only [if_true, List.append_nil] at e
    rw [e] at hmem
    exact absurd hmem (List.not_mem_nil _)

theorem mergedLines_no_newline (d limit content : Str) (hlim : '\n' ∉ limit) :
    ∀ l ∈ mergedLines d limit content, '\n' ∉ l := by
  intro l hl
  rw [mergedLines_eq] at hl
  rcases List.mem_append.1 hl with h | h
  · obtain ⟨l0, hl0, rfl⟩ := List.mem_map.1 h
    unfold replaceLine
    split_ifs
    · exact hlim
    · exact not_mem_of_mem_Split content '\n' l0 (List.mem_filter.1 hl0).1
  · split_ifs at h
    · exact absurd h (List.not_mem_nil _)
    · rw [List.mem_singleton.1 h]
      exact hlim

/-- The lines of the written content are the slice `newLines`, for an identifier
without a newline. -/
theorem Split_mergedContent (d : Str) (rb wb ri wi : Int) (content : Str) (hd : '\n' ∉ d) :
    Split (mergedContent d rb wb ri wi content) '\n' =
      mergedLines d (newLimit d rb wb ri wi) content :=
  Split_Join _ (mergedLines_ne_nil _ _ _)
    (mergedLines_no_newline _ _ _ (newLimit_no_newline d rb wb ri wi hd))

theorem ApplyDeviceIOLimits_of_read (fs : FileSystem) (cgroupPath d content : Str)
    (rb wb ri wi : Int) (hread : fs.ioMax cgroupPath = some content) :
    ApplyDeviceIOLimits fs cgroupPath d rb wb ri wi =
      WriteFile fs cgroupPath (mergedContent d rb wb ri wi content) := by
  simp [ApplyDeviceIOLimits, hread]

theorem firstFieldIs_iff (d line : Str) : firstFieldIs d line = true ↔ firstField line = some d := by
  unfold firstFieldIs firstField
  cases Fields line <;> simp

/-- Replacing a line by the limit line keeps its first field. -/
theorem firstField_replaceLine (d : Str) (rb wb ri wi : Int) (hd : d ≠ [])
    (hns : ∀ c ∈ d, isSpace c = false) (l : Str) :
    firstField (replaceLine d (newLimit d rb wb ri wi) l) = firstField l := by
  unfold replaceLine
  by_cases h : firstFieldIs d l = true
  · rw [if_pos h, (firstFieldIs_iff d l).1 h]
    exact (firstFieldIs_iff d _).1 (firstFieldIs_newLimit d rb wb ri wi hd hns)
  · rw [if_neg h]

theorem firstField_nil : firstField [] = none := rfl

theorem filterMap_firstField_filter (lines : List Str) :
    (lines.filter (fun l => l ≠ [])).filterMap firstField = lines.filterMap firstField := by
  induction lines with
  | nil => rfl
  | cons l ls ih =>
    by_cases hl : l = []
    · subst hl
      rw [List.filter_cons_of_neg (by simp), List.filterMap_cons_none firstField_nil]
      exact ih
    · rw [List.filter_cons_of_pos (by simpa using hl)]
      simp only [List.filterMap_cons, ih]

theorem any_firstFieldIs_iff (d : Str) (lines : List Str) :
    lines.any (firstFieldIs d) = true ↔ d ∈ lines.filterMap firstField := by
  rw [List.any_eq_true, List.mem_filterMap]
  constructor
  · rintro ⟨l, hl, hf⟩
    exact ⟨l, hl, (firstFieldIs_iff d l).1 hf⟩
  · rintro ⟨l, hl, hf⟩
    exact ⟨l, hl, (firstFieldIs_iff d l).2 hf⟩

/-- The device identifiers after a merge: those of the original content in their
order, with the target appended when it was not among them. -/
theorem deviceIds_mergedContent (d : Str) (rb wb ri wi : Int) (content : Str) (hd : d ≠ [])
    (hns : ∀ c ∈ d, isSpace c = false) :
    deviceIds (mergedContent d rb wb ri wi content) =
      deviceIds content ++ (if d ∈ deviceIds content then [] else [d]) := by
  unfold deviceIds
  rw [Split_mergedContent d rb wb ri wi content (newline_not_mem_of_noSpace d hns),
    mergedLines_eq, List.filterMap_append]
  congr 1
  · rw [List.filterMap_map]
    have : (firstField ∘ replaceLine d (newLimit d rb wb ri wi)) = firstField :=
      funext (firstField_replaceLine d rb wb ri wi hd hns)
    rw [this, filterMap_firstField_filter]
  · by_cases h : (Split content '\n').any (firstFieldIs d) = true
    · rw [if_pos h, if_pos ((any_firstFieldIs_iff d _).1 h)]
      rfl
    · rw [if_neg h, if_neg (fun hm => h ((any_firstFieldIs_iff d _).2 hm))]
      have := (firstFieldIs_iff d _).1 (firstFieldIs_newLimit d rb wb ri wi hd hns)
      simp [this]

/-- Merging twice with the same arguments writes what merging once writes. -/
theorem mergedContent_idem (d : Str) (rb wb ri wi : Int) (content : Str) (hd : d ≠ [])
    (hns : ∀ c ∈ d, isSpace c = false) :
    mergedContent d rb wb ri wi (mergedContent d rb wb ri wi content) =
      mergedContent d rb wb ri wi content := by
  have hnl := newline_not_mem_of_noSpace d hns
  have hlim := firstFieldIs_newLimit d rb wb ri wi hd hns
  have hrepl : ∀ l, replaceLine d (newLimit d rb wb ri wi)
      (replaceLine d (newLimit d rb wb ri wi) l) = replaceLine d (newLimit d rb wb ri wi) l := by
    intro l
    by_cases h : firstFieldIs d l = true
    · simp [replaceLine, h, hlim]
    · simp [replaceLine, h]
  have hlines : mergedLines d (newLimit d rb wb ri wi) (mergedContent d rb wb ri wi content) =
      mergedLines d (newLimit d rb wb ri wi) content := by
    rw [mergedLines_eq, Split_mergedContent d rb wb ri wi content hnl]
    have hany : (mergedLines d (newLimit d rb wb ri wi) content).any (firstFieldIs d) = true := by
      rw [List.any_eq_true, mergedLines_eq]
      by_cases h : (Split content '\n').any (firstFieldIs d) = true
      · obtain ⟨l, hl, hf⟩ := List.any_eq_true.1 h
        have hne : l ≠ [] := fun e => by
          rw [e, firstFieldIs_nil] at hf; exact absurd hf (by decide)
        refine ⟨replaceLine d (newLimit d rb wb ri wi) l, ?_, ?_⟩
        · exact List.mem_append_left _
            (List.mem_map_of_mem _ (List.mem_filter.2 ⟨hl, by simpa using hne⟩))
        · simp [replaceLine, hf, hlim]
      · exact ⟨newLimit d rb wb ri wi, by simp [h], hlim⟩
    have hfilter : (mergedLines d (newLimit d rb wb ri wi) content).filter (fun l => l ≠ []) =
        mergedLines d (newLimit d rb wb ri wi) content := by
      rw [List.filter_eq_self]
      intro l hl
      rw [mergedLines_eq] at hl
      have hne : l ≠ [] := by
        rcases List.mem_append.1 hl with h | h
        · obtain ⟨l0, hl0, rfl⟩ := List.mem_map.1 h
          unfold replaceLine
          split_ifs
          · exact newLimit_ne_nil d rb wb ri wi
          · simpa using (List.mem_filter.1 hl0).2
        · split_ifs at h
          · exact absurd h (List.not_mem_nil _)
          · rw [List.mem_singleton.1 h]
            exact newLimit_ne_nil d rb wb ri wi
      simpa using hne
    have hmap : (mergedLines d (newLimit d rb wb ri wi) content).map
        (replaceLine d (newLimit d rb wb ri wi)) = mergedLines d (newLimit d rb wb ri wi) content := by
      conv_rhs => rw [← List.map_id (mergedLines d (newLimit d rb wb ri wi) content)]
      apply List.map_congr_left
      intro l hl
      rw [mergedLines_eq] at hl
      rcases List.mem_append.1 hl with h | h
      · obtain ⟨l0, _, rfl⟩ := List.mem_map.1 h
        simpa using hrepl l0
      · split_ifs at h
        · exact absurd h (List.not_mem_nil _)
        · rw [List.mem_singleton.1 h]
          simp [replaceLine, hlim]
    rw [hany, hfilter, hmap]
    simp
  have hunfold : ∀ c, mergedContent d rb wb ri wi c =
      Join (mergedLines d (newLimit d rb wb ri wi) c) "\n".toList := fun _ => rfl
  rw [hunfold (mergedContent d rb wb ri wi content), hlines]
  rfl

theorem WriteFile_twice (fs : FileSystem) (cgroupPath a b : Str) :
    WriteFile (WriteFile fs cgroupPath a).2 cgroupPath b = WriteFile fs cgroupPath b := by
  unfold WriteFile
  by_cases h : fs.ioMaxWritable cgroupPath = true
  · simp only [h, if_true]
    congr 2
    funext p
    by_cases hp : p = cgroupPath <;> simp [hp]
  · simp [h]

/-- Counting the lines whose first field is `t` is counting `t` among the first fields. -/
theorem countP_firstFieldIs (t : Str) (lines : List Str) :
    lines.countP (firstFieldIs t) =
      (lines.filterMap firstField).countP (fun x => decide (x = t)) := by
  induction lines with
  | nil => rfl
  | cons l ls ih =>
    by_cases hf : firstFieldIs t l = true
    · rw [List.countP_cons_of_pos _ _ hf, List.filterMap_cons_some ((firstFieldIs_iff t l).1 hf),
        List.countP_cons_of_pos _ _ (by simp), ih]
    · rw [List.countP_cons_of_neg _ _ hf]
      cases hl : firstField l with
      | none => rw [List.filterMap_cons_none hl, ih]
      | some x =>
        have hx : x ≠ t := fun e => hf ((firstFieldIs_iff t l).2 (e ▸ hl))
        rw [List.filterMap_cons_some hl, List.countP_cons_of_neg _ _ (by simpa using hx), ih]

theorem countP_eq_one_of_nodup (ids : List Str) (t : Str) (hn : ids.Nodup) (ht : t ∈ ids) :
    ids.countP (fun x => decide (x = t)) = 1 := by
  induction ids with
  | nil => exact absurd ht (List.not_mem_nil _)
  | cons a l ih =>
    have hn1 := List.nodup_cons.1 hn
    by_cases ha : a = t
    · subst ha
      rw [List.countP_cons_of_pos _ _ (by simp)]
      have : l.countP (fun x => decide (x = a)) = 0 := by
        rw [List.countP_eq_zero]
        intro x hx
        simp only [decide_eq_true_eq]
        intro e
        exact hn1.1 (e ▸ hx)
      rw [this]
    · rw [List.countP_cons_of_neg _ _ (by simpa using ha)]
      rcases List.mem_cons.1 ht with h | h
      · exact absurd h.symm ha
      · exact ih hn1.2 h

theorem digitChar_toNat (k : Nat) (h : k < 10) : (Nat.digitChar k).toNat - 48 = k := by
  interval_cases k <;> rfl

theorem digitsValue_append_singleton (xs : Str) (c : Char) :
    digitsValue (xs ++ [c]) = 10 * digitsValue xs + (c.toNat - 48) := by
  simp [digitsValue, List.foldl_append]

theorem toDigitsCore_acc (fuel n : Nat) (ds : Str) :
    Nat.toDigitsCore 10 fuel n ds = Nat.toDigitsCore 10 fuel n [] ++ ds := by
  induction fuel generalizing n ds with
  | zero => simp [Nat.toDigitsCore]
  | succ f ih =>
    unfold Nat.toDigitsCore
    simp only
    split_ifs
    · simp
    · rw [ih (n / 10) (Nat.digitChar (n % 10) :: ds), ih (n / 10) [Nat.digitChar (n % 10)]]
      simp

theorem digitsValue_toDigitsCore (fuel n : Nat) (h : n < fuel) :
    digitsValue (Nat.toDigitsCore 10 fuel n []) = n := by
  induction fuel generalizing n with
  | zero => exact absurd h (Nat.not_lt_zero _)
  | succ f ih =>
    unfold Nat.toDigitsCore
    simp only
    split_ifs with h0
    · have hlt : n < 10 := by omega
      have := digitChar_toNat (n % 10) (Nat.mod_lt _ (by decide))
      simp only [digitsValue, List.foldl_cons, List.foldl_nil]
      omega
    · rw [toDigitsCore_acc, digitsValue_append_singleton, ih (n / 10) (by omega),
        digitChar_toNat (n % 10) (Nat.mod_lt _ (by decide))]
      omega

/-- The digits of a formatted natural number denote the number. -/
theorem digitsValue_formatNat (n : Nat) : digitsValue (formatNat n) = n :=
  digitsValue_toDigitsCore (n + 1) n (Nat.lt_succ_self n)

/-- The limit line is one of the lines the merge joins. -/
theorem newLimit_mem_mergedLines (d limit content : Str) :
    limit ∈ mergedLines d limit content := by
  rw [mergedLines_eq]
  by_cases h : (Split content '\n').any (firstFieldIs d) = true
  · obtain ⟨l, hl, hf⟩ := List.any_eq_true.1 h
    have hne : l ≠ [] := fun e => by rw [e, firstFieldIs_nil] at hf; exact absurd hf (by decide)
    have hmem : replaceLine d limit l ∈
        ((Split content '\n').filter (fun l => l ≠ [])).map (replaceLine d limit) :=
      List.mem_map_of_mem _ (List.mem_filter.2 ⟨hl, by simpa using hne⟩)
    simp only [replaceLine, hf, if_true] at hmem
    exact List.mem_append_left _ hmem
  · simp [h]

theorem toDigitsCore_head (fuel n : Nat) (h : n < fuel) (hn : n ≠ 0) :
    (Nat.toDigitsCore 10 fuel n []).head? ≠ some '0' := by
  induction fuel generalizing n with
  | zero => exact absurd h (Nat.not_lt_zero _)
  | succ f ih =>
    unfold Nat.toDigitsCore
    simp only
    split_ifs with h0
    · have hlt : n < 10 := by omega
      rw [Nat.mod_eq_of_lt hlt]
      interval_cases n
      · exact absurd rfl hn
      all_goals decide
    · rw [toDigitsCore_acc]
      have hne := toDigitsCore_ne_nil f (n / 10) [] (Or.inr (by omega))
      have ih1 := ih (n / 10) (by omega) h0
      cases hc : Nat.toDigitsCore 10 f (n / 10) [] with
      | nil => exact absurd hc hne
      | cons a l =>
        rw [hc] at ih1
        simpa using ih1

/-- A formatted non-zero number has no leading zero. -/
theorem formatNat_head (n : Nat) (hn : n ≠ 0) : (formatNat n).head? ≠ some '0' :=
  toDigitsCore_head (n + 1) n (Nat.lt_succ_self n) hn

theorem applyDefaults_Devices (q : QuotaConfig) : (applyDefaults q).Devices = q.Devices := by
  unfold applyDefaults
  simp only
  split_ifs <;> rfl

theorem defaultQuotas_ok (className : Str) (i : Nat) (qs : List QuotaConfig)
    (h : ∀ q ∈ qs, q.Devices ≠ []) :
    defaultQuotas className i qs = Except.ok (qs.map applyDefaults) := by
  induction qs generalizing i with
  | nil => rfl
  | cons q rest ih =>
    have hq : ¬ q.Devices.length = 0 := by
      simpa using h q (List.mem_cons_self _ _)
    simp only [defaultQuotas, if_neg hq,
      ih (i + 1) (fun x hx => h x (List.mem_cons_of_mem _ hx)), List.map_cons]

theorem defaultQuotas_error (className : Str) (i : Nat) (qs : List QuotaConfig)
    (h : ∃ q ∈ qs, q.Devices = []) : ∃ e, defaultQuotas className i qs = Except.error e := by
  induction qs generalizing i with
  | nil =>
    obtain ⟨q, hq, _⟩ := h
    exact absurd hq (List.not_mem_nil _)
  | cons q rest ih =>
    by_cases hq : q.Devices.length = 0
    · exact ⟨Error.noDevices className i, by simp only [defaultQuotas, if_pos hq]⟩
    · have hrest : ∃ x ∈ rest, x.Devices = [] := by
        obtain ⟨x, hx, hx0⟩ := h
        rcases List.mem_cons.1 hx with h1 | h1
        · subst h1
          exact absurd (by simp [hx0]) hq
        · exact ⟨x, h1, hx0⟩
      obtain ⟨e, he⟩ := ih (i + 1) hrest
      exact ⟨e, by simp only [defaultQuotas, if_neg hq, he]⟩

/-- A class list that `ParseConfig` accepts: no class without entries, no entry without
devices. -/
theorem defaultClasses_ok (classes : List (Str × List QuotaConfig))
    (h : ∀ c ∈ classes, c.2 ≠ [] ∧ ∀ q ∈ c.2, q.Devices ≠ []) :
    defaultClasses classes =
      Except.ok (classes.map (fun c => (c.1, c.2.map applyDefaults))) := by
  induction classes with
  | nil => rfl
  | cons c rest ih =>
    obtain ⟨className, qs⟩ := c
    have hc := h (className, qs) (List.mem_cons_self _ _)
    have hqs : ¬ qs.length = 0 := by simpa using hc.1
    simp only [defaultClasses, if_neg hqs, defaultQuotas_ok className 0 qs hc.2,
      ih (fun x hx => h x (List.mem_cons_of_mem _ hx)), List.map_cons]

theorem defaultClasses_error (classes : List (Str × List QuotaConfig))
    (h : ∃ c ∈ classes, c.2 = [] ∨ ∃ q ∈ c.2, q.Devices = []) :
    ∃ e, defaultClasses classes = Except.error e := by
  induction classes with
  | nil =>
    obtain ⟨c, hc, _⟩ := h
    exact absurd hc (List.not_mem_nil _)
  | cons c rest ih =>
    obtain ⟨className, qs⟩ := c
    by_cases hqs : qs.length = 0
    · exact ⟨Error.noQuotas className, by simp only [defaultClasses, if_pos hqs]⟩
    · by_cases hdev : ∃ q ∈ qs, q.Devices = []
      · obtain ⟨e, he⟩ := defaultQuotas_error className 0 qs hdev
        exact ⟨e, by simp only [defaultClasses, if_neg hqs, he]⟩
      · have hall : ∀ q ∈ qs, q.Devices ≠ [] := fun q hq h0 => hdev ⟨q, hq, h0⟩
        have hrest : ∃ x ∈ rest, x.2 = [] ∨ ∃ q ∈ x.2, q.Devices = [] := by
          obtain ⟨x, hx, hbad⟩ := h
          rcases List.mem_cons.1 hx with h1 | h1
          · subst h1
            rcases hbad with h2 | h2
            · exact absurd (by simpa using h2) hqs
            · exact absurd h2 hdev
          · exact ⟨x, h1, hbad⟩
        obtain ⟨e, he⟩ := ih hrest
        exact ⟨e, by simp only [defaultClasses, if_neg hqs, defaultQuotas_ok className 0 qs hall, he]⟩

theorem entryDefaulted_applyDefaults (q : QuotaConfig) : entryDefaulted q (applyDefaults q) := by
  obtain ⟨dev, a, b, c, d⟩ := q
  unfold entryDefaulted fieldDefaulted applyDefaults
  simp only
  by_cases ha : a = [] <;> by_cases hb : b = [] <;> by_cases hc : c = [] <;>
    by_cases hd : d = [] <;> simp [ha, hb, hc, hd]

/-- A string of white space only trims to the empty string. -/
theorem TrimSpace_eq_nil (s : Str) (h : ∀ c ∈ s, isSpace c = true) : TrimSpace s = [] := by
  have h1 : s.dropWhile isSpace = [] := List.dropWhile_eq_nil_iff.2 h
  simp [TrimSpace, h1]

/-- Every identifier "major:minor" that `GetDeviceNumbers` formats is a non-empty string
without white space. -/
theorem deviceNumbers_token (major minor : Nat) :
    formatNat major ++ ":".toList ++ formatNat minor ≠ [] ∧
    ∀ c ∈ formatNat major ++ ":".toList ++ formatNat minor, isSpace c = false := by
  refine ⟨by simp [formatNat_ne_nil], ?_⟩
  intro c hc
  rcases List.mem_append.1 hc with h | h
  · rcases List.mem_append.1 h with h1 | h1
    · exact isSpace_of_isDigit c (formatNat_isDigit major c h1)
    · rw [List.mem_singleton.1 h1]
      decide
  · exact isSpace_of_isDigit c (formatNat_isDigit minor c h)

/-! ## The merge on lists of lines -/

theorem any_firstFieldIs_filter (d : Str) (lines : List Str) :
    (lines.filter (fun l => l ≠ [])).any (firstFieldIs d) = lines.any (firstFieldIs d) := by
  induction lines with
  | nil => rfl
  | cons l ls ih =>
    by_cases hl : l = []
    · subst hl
      rw [List.filter_cons_of_neg (by simp), List.any_cons, firstFieldIs_nil, Bool.false_or, ih]
    · rw [List.filter_cons_of_pos (by simpa using hl), List.any_cons, List.any_cons, ih]

theorem mergedLines_eq_mergeLines (d limit content : Str) :
    mergedLines d limit content = mergeLines d limit (nonEmptyLines content) := by
  rw [mergedLines_eq]
  unfold mergeLines nonEmptyLines
  rw [any_firstFieldIs_filter]

theorem mergedContent_eq_Join (d : Str) (rb wb ri wi : Int) (content : Str) :
    mergedContent d rb wb ri wi content =
      Join (mergeLines d (newLimit d rb wb ri wi) (nonEmptyLines content)) ['\n'] := by
  unfold mergedContent
  rw [mergedLines_eq_mergeLines]
  rfl

theorem nonEmptyLines_spec (content : Str) :
    ∀ l ∈ nonEmptyLines content, l ≠ [] ∧ '\n' ∉ l := by
  intro l hl
  have h := List.mem_filter.1 hl
  exact ⟨by simpa using h.2, not_mem_of_mem_Split content '\n' l h.1⟩

theorem mergeLines_def (d limit : Str) (lines : List Str) :
    mergeLines d limit lines =
      lines.map (replaceLine d limit) ++ (if lines.any (firstFieldIs d) then [] else [limit]) :=
  rfl

theorem mergeLines_ne_nil (d limit : Str) (lines : List Str) : mergeLines d limit lines ≠ [] := by
  unfold mergeLines
  cases lines with
  | nil => simp
  | cons l ls => simp

theorem mergeLines_spec (d limit : Str) (lines : List Str) (hlim : limit ≠ [] ∧ '\n' ∉ limit)
    (h : ∀ l ∈ lines, l ≠ [] ∧ '\n' ∉ l) :
    ∀ l ∈ mergeLines d limit lines, l ≠ [] ∧ '\n' ∉ l := by
  intro l hl
  unfold mergeLines at hl
  rcases List.mem_append.1 hl with h1 | h1
  · obtain ⟨l0, hl0, rfl⟩ := List.mem_map.1 h1
    unfold replaceLine
    split_ifs
    · exact hlim
    · exact h l0 hl0
  · split_ifs at h1
    · exact absurd h1 (List.not_mem_nil _)
    · rw [List.mem_singleton.1 h1]
      exact hlim

/-- The non-empty lines of a joined list of non-empty, newline-free lines. -/
theorem nonEmptyLines_Join (lines : List Str) (hne : lines ≠ [])
    (h : ∀ l ∈ lines, l ≠ [] ∧ '\n' ∉ l) : nonEmptyLines (Join lines ['\n']) = lines := by
  unfold nonEmptyLines
  rw [Split_Join lines hne (fun l hl => (h l hl).2), List.filter_eq_self]
  intro l hl
  simpa using (h l hl).1

/-- The non-empty lines after a merge are the merge of the non-empty lines. -/
theorem nonEmptyLines_mergedContent (d : Str) (rb wb ri wi : Int) (content : Str)
    (hd : '\n' ∉ d) :
    nonEmptyLines (mergedContent d rb wb ri wi content) =
      mergeLines d (newLimit d rb wb ri wi) (nonEmptyLines content) := by
  rw [mergedContent_eq_Join]
  exact nonEmptyLines_Join _ (mergeLines_ne_nil _ _ _)
    (mergeLines_spec _ _ _ ⟨newLimit_ne_nil d rb wb ri wi, newLimit_no_newline d rb wb ri wi hd⟩
      (nonEmptyLines_spec content))

theorem firstFieldIs_of_ne (a b l : Str) (hab : a ≠ b) (h : firstFieldIs a l = true) :
    firstFieldIs b l = false := by
  rw [Bool.eq_false_iff]
  intro hb
  have h1 := (firstFieldIs_iff a l).1 h
  have h2 := (firstFieldIs_iff b l).1 hb
  rw [h1] at h2
  exact hab (Option.some.inj h2)

/-- Replacing a line by a limit line of the same device keeps every first-field test. -/
theorem firstFieldIs_replaceLine (x d limit l : Str) (hlim : firstFieldIs d limit = true) :
    firstFieldIs x (replaceLine d limit l) = firstFieldIs x l := by
  unfold replaceLine
  by_cases h : firstFieldIs d l = true
  · rw [if_pos h]
    have h1 := (firstFieldIs_iff d limit).1 hlim
    have h2 := (firstFieldIs_iff d l).1 h
    have hiff : firstFieldIs x limit = true ↔ firstFieldIs x l = true := by
      rw [firstFieldIs_iff, firstFieldIs_iff, h1, h2]
    cases hx : firstFieldIs x limit <;> cases hy : firstFieldIs x l <;> simp_all
  · rw [if_neg h]

theorem any_map_replaceLine (x d limit : Str) (lines : List Str)
    (hlim : firstFieldIs d limit = true) :
    (lines.map (replaceLine d limit)).any (firstFieldIs x) = lines.any (firstFieldIs x) := by
  induction lines with
  | nil => rfl
  | cons l ls ih =>
    rw [List.map_cons, List.any_cons, List.any_cons, ih, firstFieldIs_replaceLine x d limit l hlim]

theorem any_mergeLines_self (d limit : Str) (lines : List Str)
    (hlim : firstFieldIs d limit = true) :
    (mergeLines d limit lines).any (firstFieldIs d) = true := by
  unfold mergeLines
  rw [List.any_append, any_map_replaceLine d d limit lines hlim]
  cases h : lines.any (firstFieldIs d)
  · simp [hlim]
  · simp

theorem any_mergeLines_of_ne (x d limit : Str) (lines : List Str) (hx : d ≠ x)
    (hlim : firstFieldIs d limit = true) :
    (mergeLines d limit lines).any (firstFieldIs x) = lines.any (firstFieldIs x) := by
  unfold mergeLines
  rw [List.any_append, any_map_replaceLine x d limit lines hlim]
  have hfalse : firstFieldIs x limit = false := firstFieldIs_of_ne d x limit hx hlim
  cases h : lines.any (firstFieldIs d) <;> simp [hfalse]

/-- A later limit for a device replaces an earlier one. -/
theorem mergeLines_same (d l1 l2 : Str) (lines : List Str) (h1 : firstFieldIs d l1 = true) :
    mergeLines d l2 (mergeLines d l1 lines) = mergeLines d l2 lines := by
  have hrepl : ∀ l, replaceLine d l2 (replaceLine d l1 l) = replaceLine d l2 l := by
    intro l
    by_cases h : firstFieldIs d l = true
    · simp [replaceLine, h, h1]
    · simp [replaceLine, h]
  have hany := any_mergeLines_self d l1 lines h1
  rw [mergeLines_def d l2 (mergeLines d l1 lines), hany, mergeLines_def d l1 lines,
    mergeLines_def d l2 lines, if_pos rfl, List.append_nil, List.map_append, List.map_map]
  congr 1
  · apply List.map_congr_left
    intro l _
    exact hrepl l
  · cases h : lines.any (firstFieldIs d)
    · simp [replaceLine, h1]
    · simp

/-- The merges of two different devices commute when one of them has a line. -/
theorem mergeLines_comm (a b la lb : Str) (lines : List Str) (hab : a ≠ b)
    (ha : firstFieldIs a la = true) (hb : firstFieldIs b lb = true)
    (hpresent : lines.any (firstFieldIs a) = true ∨ lines.any (firstFieldIs b) = true) :
    mergeLines b lb (mergeLines a la lines) = mergeLines a la (mergeLines b lb lines) := by
  have hba : firstFieldIs b la = false := firstFieldIs_of_ne a b la hab ha
  have hab1 : firstFieldIs a lb = false := firstFieldIs_of_ne b a lb (Ne.symm hab) hb
  have hrepl : ∀ l, replaceLine b lb (replaceLine a la l) = replaceLine a la (replaceLine b lb l) := by
    intro l
    by_cases h1 : firstFieldIs a l = true
    · have h2 : firstFieldIs b l = false := firstFieldIs_of_ne a b l hab h1
      simp [replaceLine, h1, h2, hba]
    · by_cases h2 : firstFieldIs b l = true
      · simp [replaceLine, h1, h2, hab1]
      · simp [replaceLine, h1, h2]
  have hanyb := any_mergeLines_of_ne b a la lines hab ha
  have hanya := any_mergeLines_of_ne a b lb lines (Ne.symm hab) hb
  have hshape : ∀ (x lx y ly : Str), firstFieldIs y lx = false →
      (mergeLines x lx lines).any (firstFieldIs y) = lines.any (firstFieldIs y) →
      mergeLines y ly (mergeLines x lx lines) =
        lines.map (fun l => replaceLine y ly (replaceLine x lx l)) ++
          ((if lines.any (firstFieldIs x) then [] else [lx]) ++
            (if lines.any (firstFieldIs y) then [] else [ly])) := by
    intro x lx y ly hyx hany
    rw [mergeLines_def y ly (mergeLines x lx lines), hany, mergeLines_def x lx lines,
      List.map_append, List.map_map, List.append_assoc]
    congr 2
    cases h : lines.any (firstFieldIs x)
    · simp [replaceLine, hyx]
    · simp
  rw [hshape a la b lb hba hanyb, hshape b lb a la hab1 hanya]
  congr 1
  · apply List.map_congr_left
    intro l _
    exact hrepl l
  · rcases hpresent with h | h
    · simp [h]
    · simp [h]

/-! ## Two merges in a row -/

theorem mergedContent_twice (d1 d2 : Str) (rb1 wb1 ri1 wi1 rb2 wb2 ri2 wi2 : Int)
    (content : Str) (hd1 : '\n' ∉ d1) :
    mergedContent d2 rb2 wb2 ri2 wi2 (mergedContent d1 rb1 wb1 ri1 wi1 content) =
      Join (mergeLines d2 (newLimit d2 rb2 wb2 ri2 wi2)
        (mergeLines d1 (newLimit d1 rb1 wb1 ri1 wi1) (nonEmptyLines content))) ['\n'] := by
  rw [mergedContent_eq_Join d2, nonEmptyLines_mergedContent d1 rb1 wb1 ri1 wi1 content hd1]

/-- Last wins: a second merge for the same device gives what it gives alone. -/
theorem mergedContent_last_wins (d : Str) (rb1 wb1 ri1 wi1 rb2 wb2 ri2 wi2 : Int)
    (content : Str) (hd : d ≠ []) (hns : ∀ c ∈ d, isSpace c = false) :
    mergedContent d rb2 wb2 ri2 wi2 (mergedContent d rb1 wb1 ri1 wi1 content) =
      mergedContent d rb2 wb2 ri2 wi2 content := by
  rw [mergedContent_twice d d rb1 wb1 ri1 wi1 rb2 wb2 ri2 wi2 content
      (newline_not_mem_of_noSpace d hns),
    mergeLines_same d _ _ _ (firstFieldIs_newLimit d rb1 wb1 ri1 wi1 hd hns),
    ← mergedContent_eq_Join]

theorem any_nonEmptyLines_iff (d content : Str) :
    (nonEmptyLines content).any (firstFieldIs d) = true ↔
      ∃ line ∈ Split content '\n', firstFieldIs d line = true := by
  unfold nonEmptyLines
  rw [any_firstFieldIs_filter, List.any_eq_true]

/-- The merges of two different devices commute when one of them has a line. -/
theorem mergedContent_comm (a b : Str) (rba wba ria wia rbb wbb rib wib : Int) (content : Str)
    (ha : a ≠ []) (hnsa : ∀ c ∈ a, isSpace c = false)
    (hb : b ≠ []) (hnsb : ∀ c ∈ b, isSpace c = false) (hab : a ≠ b)
    (hpresent : (nonEmptyLines content).any (firstFieldIs a) = true ∨
      (nonEmptyLines content).any (firstFieldIs b) = true) :
    mergedContent b rbb wbb rib wib (mergedContent a rba wba ria wia content) =
      mergedContent a rba wba ria wia (mergedContent b rbb wbb rib wib content) := by
  rw [mergedContent_twice a b rba wba ria wia rbb wbb rib wib content
      (newline_not_mem_of_noSpace a hnsa),
    mergedContent_twice b a rbb wbb rib wib rba wba ria wia content
      (newline_not_mem_of_noSpace b hnsb),
    mergeLines_comm a b _ _ _ hab (firstFieldIs_newLimit a rba wba ria wia ha hnsa)
      (firstFieldIs_newLimit b rbb wbb rib wib hb hnsb) hpresent]

theorem ApplyDeviceIOLimits_unreadable (fs : FileSystem) (cgroupPath d : Str)
    (rb wb ri wi : Int) (hread : fs.ioMax cgroupPath = none) :
    ApplyDeviceIOLimits fs cgroupPath d rb wb ri wi = (some (Error.readFailed cgroupPath), fs) := by
  simp [ApplyDeviceIOLimits, hread]

/-- Two calls in a row on a readable control file amount to one write of the second
merge of the first merge. -/
theorem ApplyDeviceIOLimits_twice (fs : FileSystem) (cgroupPath content d1 d2 : Str)
    (rb1 wb1 ri1 wi1 rb2 wb2 ri2 wi2 : Int) (hread : fs.ioMax cgroupPath = some content) :
    ApplyDeviceIOLimits (ApplyDeviceIOLimits fs cgroupPath d1 rb1 wb1 ri1 wi1).2 cgroupPath d2
        rb2 wb2 ri2 wi2 =
      WriteFile fs cgroupPath
        (mergedContent d2 rb2 wb2 ri2 wi2 (mergedContent d1 rb1 wb1 ri1 wi1 content)) := by
  rw [ApplyDeviceIOLimits_of_read fs cgroupPath d1 content rb1 wb1 ri1 wi1 hread]
  by_cases hw : fs.ioMaxWritable cgroupPath = true
  · have hread2 : (WriteFile fs cgroupPath (mergedContent d1 rb1 wb1 ri1 wi1 content)).2.ioMax
        cgroupPath = some (mergedContent d1 rb1 wb1 ri1 wi1 content) := by
      simp [WriteFile, hw]
    rw [ApplyDeviceIOLimits_of_read _ cgroupPath d2 _ rb2 wb2 ri2 wi2 hread2, WriteFile_twice]
  · have hsame : (WriteFile fs cgroupPath (mergedContent d1 rb1 wb1 ri1 wi1 content)).2 = fs := by
      simp [WriteFile, hw]
    rw [hsame, ApplyDeviceIOLimits_of_read fs cgroupPath d2 content rb2 wb2 ri2 wi2 hread]
    simp [WriteFile, hw]

/-- A separator followed by the end of the string or by another separator leaves an
empty piece after the first piece. -/
theorem nil_mem_tail_Split (p q : Str) (sep : Char) (hq : q = [] ∨ ∃ r, q = sep :: r) :
    [] ∈ (Split (p ++ sep :: q) sep).tail := by
  induction p with
  | nil =>
    rcases hq with h | ⟨r, h⟩
    · subst h
      simp [Split]
    · subst h
      simp [Split]
  | cons c p1 ih =>
    by_cases hc : c = sep
    · have : Split (c :: p1 ++ sep :: q) sep = [] :: Split (p1 ++ sep :: q) sep := by
        simp [Split, hc]
      rw [this]
      exact List.mem_of_mem_tail ih
    · cases hs : Split (p1 ++ sep :: q) sep with
      | nil => exact absurd hs (Split_ne_nil _ _)
      | cons l ls =>
        have : Split (c :: p1 ++ sep :: q) sep = (c :: l) :: ls := by
          simp [Split, hc, hs]
        rw [this]
        rw [hs] at ih
        exact ih

/-! ## Decimal strings through ParseValue -/

theorem TrimSpace_of_noSpace (s : Str) (h : ∀ c ∈ s, isSpace c = false) : TrimSpace s = s := by
  have hdrop : ∀ t : Str, (∀ c ∈ t, isSpace c = false) → t.dropWhile isSpace = t := by
    intro t ht
    cases t with
    | nil => rfl
    | cons a l => simp [List.dropWhile, ht a (List.mem_cons_self _ _)]
  unfold TrimSpace
  rw [hdrop s h, hdrop s.reverse (fun c hc => h c (List.mem_reverse.1 hc)), List.reverse_reverse]

theorem toLower_of_isDigit (c : Char) (h : c.isDigit = true) : c.toLower = c := by
  have hb := digit_bounds c h
  unfold Char.toLower
  simp only
  rw [if_neg (by omega)]

/-- A string that starts with a digit is neither "max" nor "unlimited". -/
theorem EqualFold_of_digit_head (c : Char) (cs : Str) (h : c.isDigit = true) :
    EqualFold (c :: cs) "max".toList = false ∧ EqualFold (c :: cs) "unlimited".toList = false := by
  have hb := digit_bounds c h
  have hm : c ≠ 'm' := fun e => by rw [e] at hb; exact absurd hb.2 (by decide)
  have hu : c ≠ 'u' := fun e => by rw [e] at hb; exact absurd hb.2 (by decide)
  constructor
  · rw [Bool.eq_false_iff]
    intro he
    have h1 : (c :: cs).map Char.toLower = "max".toList.map Char.toLower := by
      simpa [EqualFold] using he
    have h2 := (List.cons.inj h1).1
    rw [toLower_of_isDigit c h] at h2
    exact hm h2
  · rw [Bool.eq_false_iff]
    intro he
    have h1 : (c :: cs).map Char.toLower = "unlimited".toList.map Char.toLower := by
      simpa [EqualFold] using he
    have h2 := (List.cons.inj h1).1
    rw [toLower_of_isDigit c h] at h2
    exact hu h2

/-- A suffix of the table does not start with a digit. -/
theorem suffix_not_digit (suffix : Str) (m : Nat) (h : suffixMultiplier suffix = some m) :
    suffix.takeWhile Char.isDigit = [] ∧ suffix.dropWhile Char.isDigit = suffix ∧
    ∀ c ∈ suffix, isSpace c = false := by
  unfold suffixMultiplier at h
  split_ifs at h with h1 h2 h3 h4 h5 h6 h7
  all_goals subst_vars
  all_goals decide

/-- The quantity parser of the spec on a run of digits followed by a suffix of the
table. -/
theorem specQuantity_scaled (num suffix : Str) (m : Nat) (hnum : num ≠ [])
    (hdigits : ∀ c ∈ num, c.isDigit = true) (hsuffix : suffixMultiplier suffix = some m)
    (hfit : ((digitsValue num : Int) * (m : Int)) ≤ MaxInt64Value) :
    specQuantity (num ++ suffix) = some ((digitsValue num * m : Nat) : Int) := by
  obtain ⟨ht, hdr, _⟩ := suffix_not_digit suffix m hsuffix
  have htake : (num ++ suffix).takeWhile Char.isDigit = num := by
    rw [List.takeWhile_append_of_pos hdigits, ht, List.append_nil]
  have hdrop : (num ++ suffix).dropWhile Char.isDigit = suffix := by
    rw [List.dropWhile_append_of_pos hdigits, hdr]
  unfold specQuantity
  simp only [htake, hdrop, if_neg hnum, hsuffix, if_pos hfit]

theorem specQuantity_formatNat (n : Nat) (h : (n : Int) < MaxInt64Value) :
    specQuantity (formatNat n) = some (n : Int) := by
  have hs := specQuantity_scaled (formatNat n) [] 1 (formatNat_ne_nil n) (formatNat_isDigit n)
    (by decide) (by rw [digitsValue_formatNat]; simp; omega)
  rw [List.append_nil, digitsValue_formatNat, Nat.mul_one] at hs
  exact hs

/-- The value `ParseValue` returns for a string that has no white space, starts with a
digit and is read by the quantity parser. -/
theorem ParseValue_of_digit_head (parseQuantity : QuantityParser) (c : Char) (cs : Str) (v : Int)
    (hc : c.isDigit = true) (hns : ∀ x ∈ c :: cs, isSpace x = false)
    (hpq : parseQuantity (c :: cs) = some v) :
    ParseValue parseQuantity (c :: cs) = (v, none) := by
  obtain ⟨h1, h2⟩ := EqualFold_of_digit_head c cs hc
  have hne : c :: cs ≠ [] := List.cons_ne_nil _ _
  simp only [ParseValue, TrimSpace_of_noSpace (c :: cs) hns, if_neg hne, h1, h2, hpq,
    Bool.or_false, Bool.false_eq_true, if_false]

/-! ## The limit applier as a fold -/

theorem applyDevices_eq_foldSteps (parseQuantity : QuantityParser) (cgroupPath className : Str)
    (i : Nat) (quota : QuotaConfig) (devices : List Str) (fs : FileSystem) :
    applyDevices parseQuantity cgroupPath className i quota devices fs =
      foldSteps parseQuantity cgroupPath className
        (devices.map (fun device => (i, quota, device))) fs := by
  induction devices generalizing fs with
  | nil => rfl
  | cons device rest ih =>
    simp only [List.map_cons, applyDevices, foldSteps, resolveLimit]
    rcases GetDeviceNumbers fs device with ⟨dn, _ | e0⟩
    · rcases ParseValue parseQuantity quota.ThrottleReadBps with ⟨v1, _ | e1⟩
      · rcases ParseValue parseQuantity quota.ThrottleWriteBps with ⟨v2, _ | e2⟩
        · rcases ParseValue parseQuantity quota.ThrottleReadIOPS with ⟨v3, _ | e3⟩
          · rcases ParseValue parseQuantity quota.ThrottleWriteIOPS with ⟨v4, _ | e4⟩
            · simp only
              rcases ApplyDeviceIOLimits fs cgroupPath dn v1 v2 v3 v4 with ⟨_ | e5, fs1⟩
              · simp only
                exact ih fs1
              · rfl
            · rfl
          · rfl
        · rfl
      · rfl
    · rfl

theorem foldSteps_append (parseQuantity : QuantityParser) (cgroupPath className : Str)
    (xs ys : List (Nat × QuotaConfig × Str)) (fs : FileSystem) :
    foldSteps parseQuantity cgroupPath className (xs ++ ys) fs =
      match foldSteps parseQuantity cgroupPath className xs fs with
      | (some err, fs1) => (some err, fs1)
      | (none, fs1) => foldSteps parseQuantity cgroupPath className ys fs1 := by
  induction xs generalizing fs with
  | nil => rfl
  | cons x rest ih =>
    simp only [List.cons_append, foldSteps]
    cases resolveLimit parseQuantity fs className x with
    | error e => rfl
    | ok l =>
      simp only
      rcases ApplyDeviceIOLimits fs cgroupPath l.deviceNumbers l.readBps l.writeBps l.readIOPS
        l.writeIOPS with ⟨_ | e5, fs1⟩
      · simp only
        exact ih fs1
      · rfl

theorem applyQuotas_eq_foldSteps (parseQuantity : QuantityParser) (cgroupPath className : Str)
    (i : Nat) (quotaConfigs : List QuotaConfig) (fs : FileSystem) :
    applyQuotas parseQuantity cgroupPath className i quotaConfigs fs =
      foldSteps parseQuantity cgroupPath className (deviceSteps i quotaConfigs) fs := by
  induction quotaConfigs generalizing i fs with
  | nil => rfl
  | cons quota rest ih =>
    simp only [applyQuotas, deviceSteps, foldSteps_append, applyDevices_eq_foldSteps]
    rcases foldSteps parseQuantity cgroupPath className
      (quota.Devices.map (fun device => (i, quota, device))) fs with ⟨_ | e, fs1⟩
    · simp only
      exact ih (i + 1) fs1
    · rfl

theorem setIoMax_self (fs : FileSystem) (cgroupPath content : Str)
    (h : fs.ioMax cgroupPath = some content) : setIoMax fs cgroupPath content = fs := by
  cases fs with
  | mk st io wr =>
    simp only [setIoMax, FileSystem.mk.injEq, true_and, and_true]
    funext p
    by_cases hp : p = cgroupPath
    · rw [if_pos hp, hp]
      exact h.symm
    · rw [if_neg hp]

theorem setIoMax_twice (fs : FileSystem) (cgroupPath a b : Str) :
    setIoMax (setIoMax fs cgroupPath a) cgroupPath b = setIoMax fs cgroupPath b := by
  simp only [setIoMax, FileSystem.mk.injEq, true_and, and_true]
  funext p
  by_cases hp : p = cgroupPath <;> simp [hp]

theorem WriteFile_of_writable (fs : FileSystem) (cgroupPath data : Str)
    (h : fs.ioMaxWritable cgroupPath = true) :
    WriteFile fs cgroupPath data = (none, setIoMax fs cgroupPath data) := by
  simp [WriteFile, h, setIoMax]

theorem resolveLimit_setIoMax (parseQuantity : QuantityParser) (fs : FileSystem)
    (cgroupPath data className : Str) (step : Nat × QuotaConfig × Str) :
    resolveLimit parseQuantity (setIoMax fs cgroupPath data) className step =
      resolveLimit parseQuantity fs className step := rfl

/-- A canonical limit that resolves has an identifier "major:minor": a non-empty string
without white space. -/
theorem resolveLimit_token (parseQuantity : QuantityParser) (fs : FileSystem) (className : Str)
    (step : Nat × QuotaConfig × Str) (l : Limit)
    (h : resolveLimit parseQuantity fs className step = Except.ok l) :
    l.deviceNumbers ≠ [] ∧ ∀ c ∈ l.deviceNumbers, isSpace c = false := by
  unfold resolveLimit at h
  cases hs : fs.stat step.2.2 with
  | info r =>
    have hg : GetDeviceNumbers fs step.2.2 =
        (formatNat (r >>> 8) ++ ":".toList ++ formatNat (r &&& 0xFF), none) := by
      simp only [GetDeviceNumbers, hs]
    rw [hg] at h
    revert h
    rcases ParseValue parseQuantity step.2.1.ThrottleReadBps with ⟨v1, _ | e1⟩
    · rcases ParseValue parseQuantity step.2.1.ThrottleWriteBps with ⟨v2, _ | e2⟩
      · rcases ParseValue parseQuantity step.2.1.ThrottleReadIOPS with ⟨v3, _ | e3⟩
        · rcases ParseValue parseQuantity step.2.1.ThrottleWriteIOPS with ⟨v4, _ | e4⟩
          · intro h
            simp only [Except.ok.injEq] at h
            rw [← h]
            exact deviceNumbers_token (r >>> 8) (r &&& 0xFF)
          · intro h
            simp at h
        · intro h
          simp at h
      · intro h
        simp at h
    · intro h
      simp at h
  | notExist =>
    have hg : GetDeviceNumbers fs step.2.2 = ([], some (Error.deviceInfo step.2.2)) := by
      simp only [GetDeviceNumbers, hs]
    rw [hg] at h
    simp at h
  | failed =>
    have hg : GetDeviceNumbers fs step.2.2 = ([], some (Error.deviceInfo step.2.2)) := by
      simp only [GetDeviceNumbers, hs]
    rw [hg] at h
    simp at h

/-- The fold over devices whose limits all resolve, on a readable and writable control
file: no error, and the control file holds the merge of all the limits in order. -/
theorem foldSteps_resolved (parseQuantity : QuantityParser) (cgroupPath className : Str)
    (steps : List (Nat × QuotaConfig × Str)) (limits : List Limit) (fs : FileSystem)
    (content : Str) (hread : fs.ioMax cgroupPath = some content)
    (hwrite : fs.ioMaxWritable cgroupPath = true)
    (hres : List.Forall₂ (fun s l => resolveLimit parseQuantity fs className s = Except.ok l)
      steps limits) :
    foldSteps parseQuantity cgroupPath className steps fs =
      (none, setIoMax fs cgroupPath (mergeAll limits content)) := by
  induction steps generalizing limits fs content with
  | nil =>
    cases hres
    simp only [foldSteps, mergeAll, List.foldl_nil, setIoMax_self fs cgroupPath content hread]
  | cons step rest ih =>
    cases hres with
    | cons hstep hrest =>
      rename_i l ls
      have happly : ApplyDeviceIOLimits fs cgroupPath l.deviceNumbers l.readBps l.writeBps
          l.readIOPS l.writeIOPS = (none, setIoMax fs cgroupPath (mergeLimit l content)) := by
        rw [ApplyDeviceIOLimits_of_read fs cgroupPath _ content _ _ _ _ hread,
          WriteFile_of_writable fs cgroupPath _ hwrite]
        rfl
      have hnext := ih ls (setIoMax fs cgroupPath (mergeLimit l content)) (mergeLimit l content)
        (by simp [setIoMax]) hwrite hrest
      simp only [foldSteps, hstep, happly, hnext, setIoMax_twice]
      rfl

/-- The fold over devices stops at the first limit that does not resolve: it returns
that error, and the control file holds the merge of the limits before it. -/
theorem foldSteps_first_failure (parseQuantity : QuantityParser) (cgroupPath className : Str)
    (pre post : List (Nat × QuotaConfig × Str)) (step : Nat × QuotaConfig × Str)
    (limits : List Limit) (err : Error) (fs : FileSystem) (content : Str)
    (hread : fs.ioMax cgroupPath = some content)
    (hwrite : fs.ioMaxWritable cgroupPath = true)
    (hres : List.Forall₂ (fun s l => resolveLimit parseQuantity fs className s = Except.ok l)
      pre limits)
    (hfail : resolveLimit parseQuantity fs className step = Except.error err) :
    foldSteps parseQuantity cgroupPath className (pre ++ step :: post) fs =
      (some err, setIoMax fs cgroupPath (mergeAll limits content)) := by
  rw [foldSteps_append,
    foldSteps_resolved parseQuantity cgroupPath className pre limits fs content hread hwrite hres]
  simp only [foldSteps, resolveLimit_setIoMax, hfail]

/-! ## Sequences of merges -/

theorem mergeAll_cons (l : Limit) (limits : List Limit) (content : Str) :
    mergeAll (l :: limits) content = mergeAll limits (mergeLimit l content) := rfl

theorem mergeAll_append (xs ys : List Limit) (content : Str) :
    mergeAll (xs ++ ys) content = mergeAll ys (mergeAll xs content) := by
  simp only [mergeAll, List.foldl_append]

/-- A device that has a line keeps having one after the merge of any limit. -/
theorem present_mergeLimit (x : Str) (l : Limit) (content : Str) (hd : l.deviceNumbers ≠ [])
    (hns : ∀ c ∈ l.deviceNumbers, isSpace c = false)
    (h : (nonEmptyLines content).any (firstFieldIs x) = true) :
    (nonEmptyLines (mergeLimit l content)).any (firstFieldIs x) = true := by
  have hlim := firstFieldIs_newLimit l.deviceNumbers l.readBps l.writeBps l.readIOPS l.writeIOPS
    hd hns
  unfold mergeLimit
  rw [nonEmptyLines_mergedContent _ _ _ _ _ _ (newline_not_mem_of_noSpace _ hns)]
  by_cases hx : l.deviceNumbers = x
  · rw [← hx]
    exact any_mergeLines_self _ _ _ hlim
  · rw [any_mergeLines_of_ne x _ _ _ hx hlim]
    exact h

theorem mergeLimit_comm (a b : Limit) (content : Str)
    (ha : a.deviceNumbers ≠ [] ∧ ∀ c ∈ a.deviceNumbers, isSpace c = false)
    (hb : b.deviceNumbers ≠ [] ∧ ∀ c ∈ b.deviceNumbers, isSpace c = false)
    (hab : a.deviceNumbers ≠ b.deviceNumbers)
    (hpresent : (nonEmptyLines content).any (firstFieldIs a.deviceNumbers) = true ∨
      (nonEmptyLines content).any (firstFieldIs b.deviceNumbers) = true) :
    mergeLimit b (mergeLimit a content) = mergeLimit a (mergeLimit b content) :=
  mergedContent_comm a.deviceNumbers b.deviceNumbers _ _ _ _ _ _ _ _ content ha.1 ha.2 hb.1 hb.2
    hab hpresent

/-- One merge moves across a sequence of merges for other devices, when for each of
them it or the other device has a line. -/
theorem mergeLimit_mergeAll_comm (a : Limit) (limits : List Limit) (content : Str)
    (ha : a.deviceNumbers ≠ [] ∧ ∀ c ∈ a.deviceNumbers, isSpace c = false)
    (hB : ∀ b ∈ limits, (b.deviceNumbers ≠ [] ∧ ∀ c ∈ b.deviceNumbers, isSpace c = false) ∧
      a.deviceNumbers ≠ b.deviceNumbers)
    (hpresent : ∀ b ∈ limits,
      (nonEmptyLines content).any (firstFieldIs a.deviceNumbers) = true ∨
      (nonEmptyLines content).any (firstFieldIs b.deviceNumbers) = true) :
    mergeLimit a (mergeAll limits content) = mergeAll limits (mergeLimit a content) := by
  induction limits generalizing content with
  | nil => rfl
  | cons b rest ih =>
    have hb := hB b (List.mem_cons_self _ _)
    rw [mergeAll_cons, mergeAll_cons,
      ih (mergeLimit b content) (fun x hx => hB x (List.mem_cons_of_mem _ hx)) ?_,
      mergeLimit_comm b a content hb.1 ha (Ne.symm hb.2)
        ((hpresent b (List.mem_cons_self _ _)).symm)]
    intro x hx
    rcases hpresent x (List.mem_cons_of_mem _ hx) with h | h
    · exact Or.inl (present_mergeLimit _ b content hb.1.1 hb.1.2 h)
    · exact Or.inr (present_mergeLimit _ b content hb.1.1 hb.1.2 h)

/-- Two sequences of merges for disjoint sets of devices commute, when of every two
devices, one from each sequence, one has a line. -/
theorem mergeAll_append_comm (xs ys : List Limit) (content : Str)
    (hxs : ∀ a ∈ xs, a.deviceNumbers ≠ [] ∧ ∀ c ∈ a.deviceNumbers, isSpace c = false)
    (hys : ∀ b ∈ ys, b.deviceNumbers ≠ [] ∧ ∀ c ∈ b.deviceNumbers, isSpace c = false)
    (hdisj : ∀ a ∈ xs, ∀ b ∈ ys, a.deviceNumbers ≠ b.deviceNumbers)
    (hpresent : ∀ a ∈ xs, ∀ b ∈ ys,
      (nonEmptyLines content).any (firstFieldIs a.deviceNumbers) = true ∨
      (nonEmptyLines content).any (firstFieldIs b.deviceNumbers) = true) :
    mergeAll (xs ++ ys) content = mergeAll (ys ++ xs) content := by
  induction xs generalizing content with
  | nil => simp
  | cons a rest ih =>
    have ha := hxs a (List.mem_cons_self _ _)
    have hstep : ∀ x ∈ rest, ∀ b ∈ ys,
        (nonEmptyLines (mergeLimit a content)).any (firstFieldIs x.deviceNumbers) = true ∨
        (nonEmptyLines (mergeLimit a content)).any (firstFieldIs b.deviceNumbers) = true := by
      intro x hx b hb
      rcases hpresent x (List.mem_cons_of_mem _ hx) b hb with h | h
      · exact Or.inl (present_mergeLimit _ a content ha.1 ha.2 h)
      · exact Or.inr (present_mergeLimit _ a content ha.1 ha.2 h)
    rw [List.cons_append, mergeAll_cons,
      ih (mergeLimit a content) (fun x hx => hxs x (List.mem_cons_of_mem _ hx))
        (fun x hx => hdisj x (List.mem_cons_of_mem _ hx)) hstep,
      mergeAll_append, mergeAll_append, mergeAll_cons,
      mergeLimit_mergeAll_comm a ys content ha
        (fun b hb => ⟨hys b hb, hdisj a (List.mem_cons_self _ _) b hb⟩)
        (fun b hb => hpresent a (List.mem_cons_self _ _) b hb)]

theorem forall₂_resolveLimit_token (parseQuantity : QuantityParser) (fs : FileSystem)
    (className : Str) (steps : List (Nat × QuotaConfig × Str)) (limits : List Limit)
    (h : List.Forall₂ (fun s l => resolveLimit parseQuantity fs className s = Except.ok l)
      steps limits) :
    ∀ l ∈ limits, l.deviceNumbers ≠ [] ∧ ∀ c ∈ l.deviceNumbers, isSpace c = false := by
  induction h with
  | nil => intro l hl; exact absurd hl (List.not_mem_nil _)
  | cons hstep _ ih =>
    intro l hl
    rcases List.mem_cons.1 hl with h1 | h1
    · rw [h1]
      exact resolveLimit_token parseQuantity fs className _ _ hstep
    · exact ih l h1

/-- Two classes whose limits all resolve, on a readable and writable control file: no
error, and the control file holds the merge of the limits of the first class and then
of the second, in order. -/
theorem applyClasses_two_resolved (parseQuantity : QuantityParser) (cgroupPath : Str)
    (nameA nameB : Str) (quotasA quotasB : List QuotaConfig) (limitsA limitsB : List Limit)
    (fs : FileSystem) (content : Str) (hread : fs.ioMax cgroupPath = some content)
    (hwrite : fs.ioMaxWritable cgroupPath = true)
    (hA : List.Forall₂ (fun s l => resolveLimit parseQuantity fs nameA s = Except.ok l)
      (deviceSteps 0 quotasA) limitsA)
    (hB : List.Forall₂ (fun s l => resolveLimit parseQuantity fs nameB s = Except.ok l)
      (deviceSteps 0 quotasB) limitsB) :
    applyClasses parseQuantity cgroupPath [(nameA, quotasA), (nameB, quotasB)] fs =
      (none, setIoMax fs cgroupPath (mergeAll (limitsA ++ limitsB) content)) := by
  have h1 := foldSteps_resolved parseQuantity cgroupPath nameA (deviceSteps 0 quotasA) limitsA fs
    content hread hwrite hA
  have h2 := foldSteps_resolved parseQuantity cgroupPath nameB (deviceSteps 0 quotasB) limitsB
    (setIoMax fs cgroupPath (mergeAll limitsA content)) (mergeAll limitsA content)
    (by simp [setIoMax]) hwrite hB
  simp only [applyClasses, applyQuotas_eq_foldSteps, h1, h2, setIoMax_twice, mergeAll_append]

/-! ## The claims -/

/-- C1: when some line of the io.max content has the target device identifier as its
first whitespace-delimited field, the content ApplyDeviceIOLimits writes has as its
lines exactly the non-empty lines of the original content in their order, each line
whose first field is the identifier replaced by the new limit line and every other
line unchanged; nothing is appended, so the number of non-empty lines is the same. -/
theorem replace_existing_device_in_place (fs : FileSystem) (cgroupPath d content : Str)
    (rb wb ri wi : Int) (hread : fs.ioMax cgroupPath = some content)
    (hfound : ∃ line ∈ Split content '\n', firstFieldIs d line = true) :
    ∃ written,
      ApplyDeviceIOLimits fs cgroupPath d rb wb ri wi = WriteFile fs cgroupPath written ∧
      Split written '\n' =
        ((Split content '\n').filter (fun l => l ≠ [])).map
          (fun l => if firstFieldIs d l = true then newLimit d rb wb ri wi else l) ∧
      (Split written '\n').length = ((Split content '\n').filter (fun l => l ≠ [])).length := by
  obtain ⟨line, hline, hf⟩ := hfound
  have hd : '\n' ∉ d := newline_not_mem_of_noSpace d (token_of_firstFieldIs d line hf).2
  have hany : (Split content '\n').any (firstFieldIs d) = true :=
    List.any_eq_true.2 ⟨line, hline, hf⟩
  have hsplit : Split (mergedContent d rb wb ri wi content) '\n' =
      ((Split content '\n').filter (fun l => l ≠ [])).map
        (fun l => if firstFieldIs d l = true then newLimit d rb wb ri wi else l) := by
    rw [Split_mergedContent d rb wb ri wi content hd, mergedLines_eq, hany]
    simp [replaceLine]
  refine ⟨mergedContent d rb wb ri wi content,
    ApplyDeviceIOLimits_of_read fs cgroupPath d content rb wb ri wi hread, hsplit, ?_⟩
  rw [hsplit, List.length_map]

/-- Witness of C1: limiting device "8:0", which has a line in the example content. -/
theorem replace_existing_device_in_place_witness :
    ∃ written,
      ApplyDeviceIOLimits (exampleFS 2048 exampleContent) "/sys/fs/cgroup/demo".toList
          "8:0".toList 50000000 MaxInt64Value 100 MaxInt64Value =
        WriteFile (exampleFS 2048 exampleContent) "/sys/fs/cgroup/demo".toList written ∧
      Split written '\n' =
        ["8:0 rbps=50000000 wbps=max riops=100 wiops=max".toList,
          "9:0 rbps=1 wbps=2 riops=3 wiops=4".toList] ∧
      (Split written '\n').length = 2 :=
  replace_existing_device_in_place (exampleFS 2048 exampleContent) "/sys/fs/cgroup/demo".toList
    "8:0".toList exampleContent 50000000 MaxInt64Value 100 MaxInt64Value rfl
    ⟨"8:0 rbps=max wbps=max riops=max wiops=max".toList, by decide, by decide⟩

/-- C2: when no line of the io.max content has the target device identifier as its first
whitespace-delimited field, ApplyDeviceIOLimits writes the non-empty lines of the
original content, unchanged and in their order, followed by the new limit line, joined
by newlines; for an identifier without a newline these are exactly the lines of the
written content, the limit line being the last one and the only one added. -/
theorem append_absent_device (fs : FileSystem) (cgroupPath d content : Str)
    (rb wb ri wi : Int) (hread : fs.ioMax cgroupPath = some content)
    (habsent : ∀ line ∈ Split content '\n', firstFieldIs d line = false) :
    ∃ written,
      ApplyDeviceIOLimits fs cgroupPath d rb wb ri wi = WriteFile fs cgroupPath written ∧
      written =
        Join ((Split content '\n').filter (fun l => l ≠ []) ++ [newLimit d rb wb ri wi])
          "\n".toList ∧
      ('\n' ∉ d →
        Split written '\n' =
          (Split content '\n').filter (fun l => l ≠ []) ++ [newLimit d rb wb ri wi] ∧
        (Split written '\n').getLast? = some (newLimit d rb wb ri wi) ∧
        (Split written '\n').length =
          ((Split content '\n').filter (fun l => l ≠ [])).length + 1) := by
  have hany : (Split content '\n').any (firstFieldIs d) = false := by
    rw [Bool.eq_false_iff]
    intro h
    obtain ⟨l, hl, hf⟩ := List.any_eq_true.1 h
    rw [habsent l hl] at hf
    exact absurd hf (by decide)
  have hmap : ((Split content '\n').filter (fun l => l ≠ [])).map
      (replaceLine d (newLimit d rb wb ri wi)) = (Split content '\n').filter (fun l => l ≠ []) := by
    conv_rhs => rw [← List.map_id ((Split content '\n').filter (fun l => l ≠ []))]
    apply List.map_congr_left
    intro l hl
    simp [replaceLine, habsent l (List.mem_filter.1 hl).1]
  have hlines : mergedLines d (newLimit d rb wb ri wi) content =
      (Split content '\n').filter (fun l => l ≠ []) ++ [newLimit d rb wb ri wi] := by
    rw [mergedLines_eq, hany, hmap]
    simp
  refine ⟨mergedContent d rb wb ri wi content,
    ApplyDeviceIOLimits_of_read fs cgroupPath d content rb wb ri wi hread, ?_, ?_⟩
  · simp only [mergedContent, hlines]
  · intro hd
    have hs := Split_mergedContent d rb wb ri wi content hd
    rw [hlines] at hs
    refine ⟨hs, ?_, ?_⟩
    · rw [hs]; simp
    · rw [hs]; simp

/-- Witness of C2: limiting device "253:1", which has no line in the example content. -/
theorem append_absent_device_witness :
    ∃ written,
      ApplyDeviceIOLimits (exampleFS 2048 exampleContent) "/sys/fs/cgroup/demo".toList
          "253:1".toList 50000000 MaxInt64Value 100 MaxInt64Value =
        WriteFile (exampleFS 2048 exampleContent) "/sys/fs/cgroup/demo".toList written ∧
      written =
        ("8:0 rbps=max wbps=max riops=max wiops=max\n9:0 rbps=1 wbps=2 riops=3 wiops=4\n" ++
          "253:1 rbps=50000000 wbps=max riops=100 wiops=max").toList ∧
      ('\n' ∉ "253:1".toList →
        Split written '\n' =
          ["8:0 rbps=max wbps=max riops=max wiops=max".toList,
            "9:0 rbps=1 wbps=2 riops=3 wiops=4".toList,
            "253:1 rbps=50000000 wbps=max riops=100 wiops=max".toList] ∧
        (Split written '\n').getLast? =
          some "253:1 rbps=50000000 wbps=max riops=100 wiops=max".toList ∧
        (Split written '\n').length = 2 + 1) :=
  append_absent_device (exampleFS 2048 exampleContent) "/sys/fs/cgroup/demo".toList
    "253:1".toList exampleContent 50000000 MaxInt64Value 100 MaxInt64Value rfl (by decide)

/-- C3: ApplyDeviceIOLimits keeps "at most one line per device identifier". When no two
lines of the io.max content share a first field and the target identifier is a
non-empty string without white space (as "major:minor" is), the written content again
has no two lines with the same first field, has exactly one line whose first field is
the target, and has exactly one line for every identifier that had a line before; it
has lines for no other identifier. -/
theorem one_line_per_device_preserved (fs : FileSystem) (cgroupPath d content : Str)
    (rb wb ri wi : Int) (hread : fs.ioMax cgroupPath = some content)
    (hinv : (deviceIds content).Nodup) (hd : d ≠ []) (hns : ∀ c ∈ d, isSpace c = false) :
    ∃ written,
      ApplyDeviceIOLimits fs cgroupPath d rb wb ri wi = WriteFile fs cgroupPath written ∧
      (deviceIds written).Nodup ∧
      (Split written '\n').countP (firstFieldIs d) = 1 ∧
      (∀ t ∈ deviceIds content, (Split written '\n').countP (firstFieldIs t) = 1) ∧
      (∀ t ∈ deviceIds written, t = d ∨ t ∈ deviceIds content) := by
  have hids := deviceIds_mergedContent d rb wb ri wi content hd hns
  have hnodup : (deviceIds (mergedContent d rb wb ri wi content)).Nodup := by
    rw [hids]
    by_cases h : d ∈ deviceIds content
    · simpa [h] using hinv
    · rw [if_neg h]
      exact List.Nodup.append hinv (List.nodup_singleton d) (by simpa using h)
  have hcount : ∀ t, t ∈ deviceIds (mergedContent d rb wb ri wi content) →
      (Split (mergedContent d rb wb ri wi content) '\n').countP (firstFieldIs t) = 1 := by
    intro t ht
    rw [countP_firstFieldIs]
    exact countP_eq_one_of_nodup _ t hnodup ht
  refine ⟨mergedContent d rb wb ri wi content,
    ApplyDeviceIOLimits_of_read fs cgroupPath d content rb wb ri wi hread, hnodup, ?_, ?_, ?_⟩
  · apply hcount
    rw [hids]
    by_cases h : d ∈ deviceIds content <;> simp [h]
  · intro t ht
    apply hcount
    rw [hids]
    exact List.mem_append_left _ ht
  · intro t ht
    rw [hids] at ht
    rcases List.mem_append.1 ht with h | h
    · exact Or.inr h
    · split_ifs at h
      · exact absurd h (List.not_mem_nil _)
      · exact Or.inl (List.mem_singleton.1 h)

/-- Witness of C3: the example content has one line per device, and "8:0" is a token. -/
theorem one_line_per_device_preserved_witness :
    (deviceIds exampleContent).Nodup ∧ "8:0".toList ≠ [] ∧
    (∀ c ∈ "8:0".toList, isSpace c = false) ∧
    ∃ written,
      ApplyDeviceIOLimits (exampleFS 2048 exampleContent) "/sys/fs/cgroup/demo".toList
          "8:0".toList 50000000 MaxInt64Value 100 MaxInt64Value =
        WriteFile (exampleFS 2048 exampleContent) "/sys/fs/cgroup/demo".toList written ∧
      (deviceIds written).Nodup ∧
      (Split written '\n').countP (firstFieldIs "8:0".toList) = 1 ∧
      (∀ t ∈ deviceIds exampleContent, (Split written '\n').countP (firstFieldIs t) = 1) ∧
      (∀ t ∈ deviceIds written, t = "8:0".toList ∨ t ∈ deviceIds exampleContent) :=
  ⟨by decide, by decide, by decide,
    one_line_per_device_preserved (exampleFS 2048 exampleContent) "/sys/fs/cgroup/demo".toList
      "8:0".toList exampleContent 50000000 MaxInt64Value 100 MaxInt64Value rfl
      (by decide) (by decide) (by decide)⟩

/-- C4: the merge is idempotent. For every file system, every target identifier that is
a non-empty string without white space (as "major:minor" is) and every four limit
values, a second ApplyDeviceIOLimits with the same arguments returns the same result
and leaves the same file system as the first one; in particular the written content of
the second merge is the written content of the first. -/
theorem apply_device_idempotent (fs : FileSystem) (cgroupPath d : Str) (rb wb ri wi : Int)
    (hd : d ≠ []) (hns : ∀ c ∈ d, isSpace c = false) :
    ApplyDeviceIOLimits (ApplyDeviceIOLimits fs cgroupPath d rb wb ri wi).2 cgroupPath d
        rb wb ri wi = ApplyDeviceIOLimits fs cgroupPath d rb wb ri wi ∧
    ∀ content, mergedContent d rb wb ri wi (mergedContent d rb wb ri wi content) =
      mergedContent d rb wb ri wi content := by
  refine ⟨?_, fun content => mergedContent_idem d rb wb ri wi content hd hns⟩
  cases hread : fs.ioMax cgroupPath with
  | none => simp [ApplyDeviceIOLimits, hread]
  | some content =>
    rw [ApplyDeviceIOLimits_of_read fs cgroupPath d content rb wb ri wi hread]
    by_cases hw : fs.ioMaxWritable cgroupPath = true
    · have hread2 : (WriteFile fs cgroupPath (mergedContent d rb wb ri wi content)).2.ioMax
          cgroupPath = some (mergedContent d rb wb ri wi content) := by
        simp [WriteFile, hw]
      rw [ApplyDeviceIOLimits_of_read _ cgroupPath d _ rb wb ri wi hread2,
        mergedContent_idem d rb wb ri wi content hd hns, WriteFile_twice]
    · have hsame : (WriteFile fs cgroupPath (mergedContent d rb wb ri wi content)).2 = fs := by
        simp [WriteFile, hw]
      rw [hsame, ApplyDeviceIOLimits_of_read fs cgroupPath d content rb wb ri wi hread]

/-- Witness of C4: applying the same limit for "8:0" twice to the example content. -/
theorem apply_device_idempotent_witness :
    "8:0".toList ≠ [] ∧ (∀ c ∈ "8:0".toList, isSpace c = false) ∧
    ApplyDeviceIOLimits
        (ApplyDeviceIOLimits (exampleFS 2048 exampleContent) "/sys/fs/cgroup/demo".toList
          "8:0".toList 50000000 MaxInt64Value 100 MaxInt64Value).2
        "/sys/fs/cgroup/demo".toList "8:0".toList 50000000 MaxInt64Value 100 MaxInt64Value =
      ApplyDeviceIOLimits (exampleFS 2048 exampleContent) "/sys/fs/cgroup/demo".toList
        "8:0".toList 50000000 MaxInt64Value 100 MaxInt64Value ∧
    ∀ content,
      mergedContent "8:0".toList 50000000 MaxInt64Value 100 MaxInt64Value
          (mergedContent "8:0".toList 50000000 MaxInt64Value 100 MaxInt64Value content) =
        mergedContent "8:0".toList 50000000 MaxInt64Value 100 MaxInt64Value content :=
  ⟨by decide, by decide,
    apply_device_idempotent (exampleFS 2048 exampleContent) "/sys/fs/cgroup/demo".toList
      "8:0".toList 50000000 MaxInt64Value 100 MaxInt64Value (by decide) (by decide)⟩

/-- C5: for every device identifier and every four values, the limit line that
ApplyDeviceIOLimits formats and writes is the identifier followed by " rbps=", " wbps=",
" riops=" and " wiops=", each followed by formatMaxOrValue of the matching value;
formatMaxOrValue gives "max" exactly for MaxInt64Value = 2^63 - 1 and the decimal
representation otherwise (digits that denote the value, after a minus sign for a
negative value), so that 1000 is written "1000". -/
theorem limit_line_format (d : Str) (rb wb ri wi : Int) :
    newLimit d rb wb ri wi =
      d ++ " rbps=".toList ++ formatMaxOrValue rb ++ " wbps=".toList ++ formatMaxOrValue wb ++
        " riops=".toList ++ formatMaxOrValue ri ++ " wiops=".toList ++ formatMaxOrValue wi ∧
    (∀ (fs : FileSystem) (cgroupPath content : Str), fs.ioMax cgroupPath = some content →
      ∃ before after,
        ApplyDeviceIOLimits fs cgroupPath d rb wb ri wi =
          WriteFile fs cgroupPath
            (Join (before ++ newLimit d rb wb ri wi :: after) "\n".toList)) ∧
    MaxInt64Value = 2 ^ 63 - 1 ∧
    (∀ v : Int, formatMaxOrValue v = "max".toList ↔ v = MaxInt64Value) ∧
    (∀ n : Nat, (n : Int) ≠ MaxInt64Value →
      digitsValue (formatMaxOrValue n) = n ∧ (∀ c ∈ formatMaxOrValue n, c.isDigit = true) ∧
      (n ≠ 0 → (formatMaxOrValue n).head? ≠ some '0')) ∧
    (∀ n : Nat, 0 < n →
      ∃ ds, formatMaxOrValue (-(n : Int)) = '-' :: ds ∧ digitsValue ds = n ∧
        (∀ c ∈ ds, c.isDigit = true) ∧ ds.head? ≠ some '0') ∧
    formatMaxOrValue 1000 = "1000".toList := by
  refine ⟨rfl, ?_, by decide, ?_, ?_, ?_, by decide⟩
  · intro fs cgroupPath content hread
    obtain ⟨before, after, h⟩ :=
      List.append_of_mem (newLimit_mem_mergedLines d (newLimit d rb wb ri wi) content)
    refine ⟨before, after, ?_⟩
    rw [ApplyDeviceIOLimits_of_read fs cgroupPath d content rb wb ri wi hread, ← h]
    rfl
  · intro v
    unfold formatMaxOrValue
    constructor
    · intro h
      by_contra hv
      rw [if_neg hv] at h
      exact formatInt_ne_max v h
    · intro h
      rw [if_pos h]
  · intro n hn
    unfold formatMaxOrValue
    rw [if_neg hn]
    exact ⟨digitsValue_formatNat n, formatNat_isDigit n, formatNat_head n⟩
  · intro n hn
    have h1 : (-(n : Int)) ≠ MaxInt64Value := by
      unfold MaxInt64Value
      omega
    unfold formatMaxOrValue
    rw [if_neg h1]
    cases n with
    | zero => exact absurd hn (by decide)
    | succ m =>
      exact ⟨formatNat (m + 1), rfl, digitsValue_formatNat (m + 1), formatNat_isDigit (m + 1),
        formatNat_head (m + 1) (Nat.succ_ne_zero m)⟩

/-- C6: end to end. With io.max holding the single line
"8:0 rbps=max wbps=max riops=max wiops=max" (with or without its final newline) and a
configuration of one class with one entry whose only device has the raw device number
2048, hence resolves to "8:0", with ThrottleReadBps "50M" and the other three throttle
fields omitted, ParseConfig succeeds and ApplyIOLimits on its result succeeds and
leaves io.max with the content "8:0 rbps=50000000 wbps=max riops=max wiops=max", the
one line whose first field is "8:0". The quantity parser is any parser that reads
"50M" as 50000000, and the existing cgroup directory and writable control file are
what "succeeds" presupposes. -/
theorem end_to_end_single_device (parseQuantity : QuantityParser) (fs : FileSystem)
    (cgroupPath className device content : Str)
    (hpq : parseQuantity "50M".toList = some 50000000)
    (hcg : fs.stat cgroupPath ≠ StatResult.notExist)
    (hdev : fs.stat device = StatResult.info 2048)
    (hcontent : content = "8:0 rbps=max wbps=max riops=max wiops=max".toList ∨
      content = "8:0 rbps=max wbps=max riops=max wiops=max\n".toList)
    (hread : fs.ioMax cgroupPath = some content)
    (hwrite : fs.ioMaxWritable cgroupPath = true) :
    ∃ config fs1 written,
      ParseConfig (some { Classes := [(className,
        [{ Devices := [device], ThrottleReadIOPS := [], ThrottleWriteIOPS := [],
           ThrottleReadBps := "50M".toList, ThrottleWriteBps := [] }])] }) = Except.ok config ∧
      GetDeviceNumbers fs device = ("8:0".toList, none) ∧
      ApplyIOLimits parseQuantity fs cgroupPath config = (none, fs1) ∧
      fs1.ioMax cgroupPath = some written ∧
      written = "8:0 rbps=50000000 wbps=max riops=max wiops=max".toList ∧
      (Split written '\n').filter (firstFieldIs "8:0".toList) =
        ["8:0 rbps=50000000 wbps=max riops=max wiops=max".toList] := by
  have hdevnum : GetDeviceNumbers fs device = ("8:0".toList, none) := by
    simp only [GetDeviceNumbers, hdev]
    decide
  have hbps : ParseValue parseQuantity "50M".toList = (50000000, none) := by
    have ht : TrimSpace "50M".toList = "50M".toList := by decide
    have h1 : EqualFold "50M".toList "max".toList = false := by decide
    have h2 : EqualFold "50M".toList "unlimited".toList = false := by decide
    have h3 : "50M".toList ≠ [] := by decide
    simp only [ParseValue, ht, h1, h2, hpq, if_neg h3, Bool.or_false, Bool.false_eq_true, if_false]
  have hmax : ParseValue parseQuantity "max".toList = (MaxInt64Value, none) := by
    have ht : TrimSpace "max".toList = "max".toList := by decide
    have h1 : EqualFold "max".toList "max".toList = true := by decide
    have h3 : "max".toList ≠ [] := by decide
    simp only [ParseValue, ht, h1, if_neg h3, Bool.true_or, if_true]
  have hmerge : mergedContent "8:0".toList 50000000 MaxInt64Value MaxInt64Value MaxInt64Value
      content = "8:0 rbps=50000000 wbps=max riops=max wiops=max".toList := by
    rcases hcontent with h | h <;> rw [h] <;> decide
  refine ⟨{ Classes := [(className,
      [{ Devices := [device], ThrottleReadIOPS := "max".toList, ThrottleWriteIOPS := "max".toList,
         ThrottleReadBps := "50M".toList, ThrottleWriteBps := "max".toList }])] },
    (WriteFile fs cgroupPath "8:0 rbps=50000000 wbps=max riops=max wiops=max".toList).2,
    "8:0 rbps=50000000 wbps=max riops=max wiops=max".toList,
    ?_, hdevnum, ?_, ?_, rfl, by decide⟩
  · simp [ParseConfig, defaultClasses, defaultQuotas, applyDefaults]
  · simp only [ApplyIOLimits, if_neg hcg, applyClasses, applyQuotas, applyDevices, hdevnum, hbps,
      hmax, ApplyDeviceIOLimits_of_read fs cgroupPath _ content _ _ _ _ hread, hmerge]
    simp [WriteFile, hwrite]
  · simp [WriteFile, hwrite]

/-- Witness of C6: the example configuration, the quantity parser of the spec, and a
file system whose device files have the raw device number 2048. -/
theorem end_to_end_single_device_witness :
    specQuantity "50M".toList = some 50000000 ∧
    ∃ config fs1 written,
      ParseConfig (some exampleConfig) = Except.ok config ∧
      GetDeviceNumbers (exampleFS 2048 "8:0 rbps=max wbps=max riops=max wiops=max\n".toList)
        "/dev/sda".toList = ("8:0".toList, none) ∧
      ApplyIOLimits specQuantity
          (exampleFS 2048 "8:0 rbps=max wbps=max riops=max wiops=max\n".toList)
          "/sys/fs/cgroup/demo".toList config = (none, fs1) ∧
      fs1.ioMax "/sys/fs/cgroup/demo".toList = some written ∧
      written = "8:0 rbps=50000000 wbps=max riops=max wiops=max".toList ∧
      (Split written '\n').filter (firstFieldIs "8:0".toList) =
        ["8:0 rbps=50000000 wbps=max riops=max wiops=max".toList] :=
  ⟨by decide,
    end_to_end_single_device specQuantity
      (exampleFS 2048 "8:0 rbps=max wbps=max riops=max wiops=max\n".toList)
      "/sys/fs/cgroup/demo".toList "example".toList "/dev/sda".toList
      "8:0 rbps=max wbps=max riops=max wiops=max\n".toList
      (by decide) (by decide) rfl (Or.inr rfl) rfl rfl⟩

/-- C7: for a well-formed JSON input, taken as the Config it decodes to, ParseConfig
returns an error exactly when the Classes mapping is empty, or some class has an empty
list of quota entries, or some quota entry has an empty Devices list; so every Config
that ParseConfig returns has a class, every class of it has a quota entry and every
quota entry has a device. -/
theorem parse_config_error_iff (config : Config) :
    ((∃ e, ParseConfig (some config) = Except.error e) ↔
      (config.Classes = [] ∨
        ∃ c ∈ config.Classes, c.2 = [] ∨ ∃ q ∈ c.2, q.Devices = [])) ∧
    (∀ parsed, ParseConfig (some config) = Except.ok parsed →
      parsed.Classes ≠ [] ∧
        ∀ c ∈ parsed.Classes, c.2 ≠ [] ∧ ∀ q ∈ c.2, q.Devices ≠ []) := by
  by_cases hbad : config.Classes = [] ∨
      ∃ c ∈ config.Classes, c.2 = [] ∨ ∃ q ∈ c.2, q.Devices = []
  · have herr : ∃ e, ParseConfig (some config) = Except.error e := by
      by_cases h0 : config.Classes = []
      · exact ⟨Error.noClasses, by simp [ParseConfig, h0]⟩
      · have hlen : ¬ config.Classes.length = 0 := by simpa using h0
        obtain ⟨e, he⟩ := defaultClasses_error config.Classes (hbad.resolve_left h0)
        exact ⟨e, by simp only [ParseConfig, if_neg hlen, he]⟩
    refine ⟨⟨fun _ => hbad, fun _ => herr⟩, ?_⟩
    intro parsed hp
    obtain ⟨e, he⟩ := herr
    rw [he] at hp
    exact absurd hp (by simp)
  · have h0 : config.Classes ≠ [] := fun h => hbad (Or.inl h)
    have hlen : ¬ config.Classes.length = 0 := by simpa using h0
    have hall : ∀ c ∈ config.Classes, c.2 ≠ [] ∧ ∀ q ∈ c.2, q.Devices ≠ [] := by
      intro c hc
      refine ⟨fun h => hbad (Or.inr ⟨c, hc, Or.inl h⟩), ?_⟩
      intro q hq h
      exact hbad (Or.inr ⟨c, hc, Or.inr ⟨q, hq, h⟩⟩)
    have hok : ParseConfig (some config) =
        Except.ok { Classes := config.Classes.map (fun c => (c.1, c.2.map applyDefaults)) } := by
      simp only [ParseConfig, if_neg hlen, defaultClasses_ok config.Classes hall]
    refine ⟨⟨?_, fun h => absurd h hbad⟩, ?_⟩
    · rintro ⟨e, he⟩
      rw [hok] at he
      exact absurd he (by simp)
    · intro parsed hp
      rw [hok] at hp
      have hparsed : parsed =
          { Classes := config.Classes.map (fun c => (c.1, c.2.map applyDefaults)) } :=
        (Except.ok.inj hp).symm
      subst hparsed
      refine ⟨by simpa using h0, ?_⟩
      intro c hc
      obtain ⟨c0, hc0, rfl⟩ := List.mem_map.1 hc
      refine ⟨by simpa using (hall c0 hc0).1, ?_⟩
      intro q hq
      obtain ⟨q0, hq0, rfl⟩ := List.mem_map.1 hq
      rw [applyDefaults_Devices]
      exact (hall c0 hc0).2 q0 hq0

/-- C8: when ParseConfig accepts a configuration, the returned Config has the same
classes under the same names in the same order, each with the same number of quota
entries in the same order; every entry keeps its Devices list, and each of its four
throttle fields is non-empty: "max" where the input field was omitted or empty, the
input field unchanged otherwise. -/
theorem parse_config_defaults (config parsed : Config)
    (h : ParseConfig (some config) = Except.ok parsed) :
    List.Forall₂
      (fun (c c1 : Str × List QuotaConfig) => c1.1 = c.1 ∧ List.Forall₂ entryDefaulted c.2 c1.2)
      config.Classes parsed.Classes ∧
    parsed.Classes.map Prod.fst = config.Classes.map Prod.fst ∧
    parsed.Classes.map (fun c => c.2.map QuotaConfig.Devices) =
      config.Classes.map (fun c => c.2.map QuotaConfig.Devices) := by
  have hgood : ¬ (config.Classes = [] ∨
      ∃ c ∈ config.Classes, c.2 = [] ∨ ∃ q ∈ c.2, q.Devices = []) := by
    intro hbad
    by_cases h0 : config.Classes = []
    · simp [ParseConfig, h0] at h
    · have hlen : ¬ config.Classes.length = 0 := by simpa using h0
      obtain ⟨e, he⟩ := defaultClasses_error config.Classes (hbad.resolve_left h0)
      simp only [ParseConfig, if_neg hlen, he] at h
      exact absurd h (by simp)
  have h0 : config.Classes ≠ [] := fun h => hgood (Or.inl h)
  have hlen : ¬ config.Classes.length = 0 := by simpa using h0
  have hall : ∀ c ∈ config.Classes, c.2 ≠ [] ∧ ∀ q ∈ c.2, q.Devices ≠ [] := by
    intro c hc
    refine ⟨fun h => hgood (Or.inr ⟨c, hc, Or.inl h⟩), ?_⟩
    intro q hq h
    exact hgood (Or.inr ⟨c, hc, Or.inr ⟨q, hq, h⟩⟩)
  simp only [ParseConfig, if_neg hlen, defaultClasses_ok config.Classes hall] at h
  have hparsed : parsed =
      { Classes := config.Classes.map (fun c => (c.1, c.2.map applyDefaults)) } :=
    (Except.ok.inj h).symm
  subst hparsed
  refine ⟨?_, ?_, ?_⟩
  · rw [List.forall₂_map_right_iff]
    apply List.forall₂_same.2
    intro c _
    refine ⟨rfl, ?_⟩
    rw [List.forall₂_map_right_iff]
    exact List.forall₂_same.2 (fun q _ => entryDefaulted_applyDefaults q)
  · simp [List.map_map, Function.comp_def]
  · simp only [List.map_map, Function.comp_def]
    apply List.map_congr_left
    intro c _
    simp only [List.map_map, Function.comp_def, applyDefaults_Devices]

/-- Witness of C8: the example configuration parses, and its three omitted throttle
fields come back as "max". -/
theorem parse_config_defaults_witness :
    ParseConfig (some exampleConfig) =
      Except.ok { Classes := [("example".toList,
        [{ Devices := ["/dev/sda".toList], ThrottleReadIOPS := "max".toList,
           ThrottleWriteIOPS := "max".toList, ThrottleReadBps := "50M".toList,
           ThrottleWriteBps := "max".toList }])] } ∧
    List.Forall₂
      (fun (c c1 : Str × List QuotaConfig) => c1.1 = c.1 ∧ List.Forall₂ entryDefaulted c.2 c1.2)
      exampleConfig.Classes
      [("example".toList,
        [{ Devices := ["/dev/sda".toList], ThrottleReadIOPS := "max".toList,
           ThrottleWriteIOPS := "max".toList, ThrottleReadBps := "50M".toList,
           ThrottleWriteBps := "max".toList }])] :=
  ⟨rfl,
    (parse_config_defaults exampleConfig
      { Classes := [("example".toList,
        [{ Devices := ["/dev/sda".toList], ThrottleReadIOPS := "max".toList,
           ThrottleWriteIOPS := "max".toList, ThrottleReadBps := "50M".toList,
           ThrottleWriteBps := "max".toList }])] } rfl).1⟩

/-- C9: for every string that, after trimming surrounding white space, equals "max" or
"unlimited" without regard to letter case, ParseValue returns MaxInt64Value, which is
2^63 - 1, and no error, whatever the quantity parser is. -/
theorem parse_value_max_unlimited (parseQuantity : QuantityParser) (value : Str)
    (h : EqualFold (TrimSpace value) "max".toList = true ∨
      EqualFold (TrimSpace value) "unlimited".toList = true) :
    ParseValue parseQuantity value = (MaxInt64Value, none) ∧ MaxInt64Value = 2 ^ 63 - 1 := by
  have hne : TrimSpace value ≠ [] := by
    intro e
    rw [e] at h
    rcases h with h | h
    · exact absurd h (by decide)
    · exact absurd h (by decide)
  have hor : (EqualFold (TrimSpace value) "max".toList ||
      EqualFold (TrimSpace value) "unlimited".toList) = true := by
    rcases h with h | h
    · rw [h, Bool.true_or]
    · rw [h, Bool.or_true]
  refine ⟨?_, by decide⟩
  simp only [ParseValue, if_neg hne, hor, if_true]

/-- Witness of C9: the string " Unlimited " with surrounding spaces and a capital. -/
theorem parse_value_max_unlimited_witness :
    EqualFold (TrimSpace " Unlimited ".toList) "unlimited".toList = true ∧
    ParseValue specQuantity " Unlimited ".toList = (MaxInt64Value, none) ∧
    MaxInt64Value = 2 ^ 63 - 1 :=
  ⟨by decide, parse_value_max_unlimited specQuantity " Unlimited ".toList (Or.inr (by decide))⟩

/-- C10: ParseValue fails, returning the value 0 and an error, for every string that is
empty or all white space (the error "empty value not allowed"), and for every string
whose trimmed form is neither "max" nor "unlimited" in any letter case and is rejected
by the quantity parser (the error "failed to parse value"). -/
theorem parse_value_fails (parseQuantity : QuantityParser) (value : Str)
    (h : (∀ c ∈ value, isSpace c = true) ∨
      (EqualFold (TrimSpace value) "max".toList = false ∧
        EqualFold (TrimSpace value) "unlimited".toList = false ∧
        parseQuantity (TrimSpace value) = none)) :
    (∃ e, ParseValue parseQuantity value = (0, some e)) ∧
    ((∀ c ∈ value, isSpace c = true) →
      ParseValue parseQuantity value = (0, some Error.emptyValue)) := by
  have hempty : (∀ c ∈ value, isSpace c = true) →
      ParseValue parseQuantity value = (0, some Error.emptyValue) := by
    intro hs
    simp only [ParseValue, TrimSpace_eq_nil value hs, if_true]
  refine ⟨?_, hempty⟩
  rcases h with h | ⟨h1, h2, h3⟩
  · exact ⟨_, hempty h⟩
  · by_cases hne : TrimSpace value = []
    · exact ⟨Error.emptyValue, by simp only [ParseValue, hne, if_true]⟩
    · exact ⟨Error.badQuantity (TrimSpace value), by
        simp only [ParseValue, if_neg hne, h1, h2, h3, Bool.or_false, Bool.false_eq_true,
          if_false]⟩

/-- Witness of C10: the string "10X", which is neither "max" nor "unlimited" and which
the quantity parser of the spec rejects. -/
theorem parse_value_fails_witness :
    (EqualFold (TrimSpace "10X".toList) "max".toList = false ∧
      EqualFold (TrimSpace "10X".toList) "unlimited".toList = false ∧
      specQuantity (TrimSpace "10X".toList) = none) ∧
    (∃ e, ParseValue specQuantity "10X".toList = (0, some e)) ∧
    ((∀ c ∈ "10X".toList, isSpace c = true) →
      ParseValue specQuantity "10X".toList = (0, some Error.emptyValue)) :=
  ⟨by decide, parse_value_fails specQuantity "10X".toList (Or.inr (by decide))⟩

/-- C16: last wins. For every file system and io.max content, every device identifier
that is a non-empty string without white space (as "major:minor" is) and every two sets
of four limit values, ApplyDeviceIOLimits with the first set and then with the second
returns the same result and leaves the same file system, hence the same io.max
content, as ApplyDeviceIOLimits with the second set alone. -/
theorem apply_device_last_wins (fs : FileSystem) (cgroupPath d : Str)
    (rb1 wb1 ri1 wi1 rb2 wb2 ri2 wi2 : Int)
    (hd : d ≠ []) (hns : ∀ c ∈ d, isSpace c = false) :
    ApplyDeviceIOLimits (ApplyDeviceIOLimits fs cgroupPath d rb1 wb1 ri1 wi1).2 cgroupPath d
        rb2 wb2 ri2 wi2 = ApplyDeviceIOLimits fs cgroupPath d rb2 wb2 ri2 wi2 ∧
    ∀ content, mergedContent d rb2 wb2 ri2 wi2 (mergedContent d rb1 wb1 ri1 wi1 content) =
      mergedContent d rb2 wb2 ri2 wi2 content := by
  refine ⟨?_, fun content =>
    mergedContent_last_wins d rb1 wb1 ri1 wi1 rb2 wb2 ri2 wi2 content hd hns⟩
  cases hread : fs.ioMax cgroupPath with
  | none =>
    rw [ApplyDeviceIOLimits_unreadable fs cgroupPath d rb1 wb1 ri1 wi1 hread]
  | some content =>
    rw [ApplyDeviceIOLimits_twice fs cgroupPath content d d rb1 wb1 ri1 wi1 rb2 wb2 ri2 wi2 hread,
      mergedContent_last_wins d rb1 wb1 ri1 wi1 rb2 wb2 ri2 wi2 content hd hns,
      ApplyDeviceIOLimits_of_read fs cgroupPath d content rb2 wb2 ri2 wi2 hread]

/-- Witness of C16: limiting "8:0" to 1000 and then to 50000000 on the example content. -/
theorem apply_device_last_wins_witness :
    "8:0".toList ≠ [] ∧ (∀ c ∈ "8:0".toList, isSpace c = false) ∧
    ApplyDeviceIOLimits
        (ApplyDeviceIOLimits (exampleFS 2048 exampleContent) "/sys/fs/cgroup/demo".toList
          "8:0".toList 1000 2000 3000 4000).2
        "/sys/fs/cgroup/demo".toList "8:0".toList 50000000 MaxInt64Value 100 MaxInt64Value =
      ApplyDeviceIOLimits (exampleFS 2048 exampleContent) "/sys/fs/cgroup/demo".toList
        "8:0".toList 50000000 MaxInt64Value 100 MaxInt64Value ∧
    ∀ content,
      mergedContent "8:0".toList 50000000 MaxInt64Value 100 MaxInt64Value
          (mergedContent "8:0".toList 1000 2000 3000 4000 content) =
        mergedContent "8:0".toList 50000000 MaxInt64Value 100 MaxInt64Value content :=
  ⟨by decide, by decide,
    apply_device_last_wins (exampleFS 2048 exampleContent) "/sys/fs/cgroup/demo".toList
      "8:0".toList 1000 2000 3000 4000 50000000 MaxInt64Value 100 MaxInt64Value
      (by decide) (by decide)⟩

/-- C17: for every io.max content and every device identifier without a newline, the
content ApplyDeviceIOLimits writes is non-empty, has no empty line (no two newlines in
a row), and neither begins nor ends with a newline; each of its lines is the limit
line or a non-empty line of the original content, so the blank lines of the original,
the one after a final newline included, are dropped and no final newline is added. -/
theorem written_content_has_no_blank_line (fs : FileSystem) (cgroupPath d content : Str)
    (rb wb ri wi : Int) (hread : fs.ioMax cgroupPath = some content) (hd : '\n' ∉ d) :
    ∃ written,
      ApplyDeviceIOLimits fs cgroupPath d rb wb ri wi = WriteFile fs cgroupPath written ∧
      written ≠ [] ∧
      (∀ l ∈ Split written '\n', l ≠ []) ∧
      ¬ (['\n', '\n'] <:+: written) ∧
      written.head? ≠ some '\n' ∧
      written.getLast? ≠ some '\n' ∧
      (∀ l ∈ Split written '\n',
        l = newLimit d rb wb ri wi ∨ (l ∈ Split content '\n' ∧ l ≠ [])) := by
  have hsplit := Split_mergedContent d rb wb ri wi content hd
  have hlines : ∀ l ∈ Split (mergedContent d rb wb ri wi content) '\n', l ≠ [] := by
    intro l hl
    rw [hsplit, mergedLines_eq_mergeLines] at hl
    exact (mergeLines_spec _ _ _
      ⟨newLimit_ne_nil d rb wb ri wi, newLimit_no_newline d rb wb ri wi hd⟩
      (nonEmptyLines_spec content) l hl).1
  refine ⟨mergedContent d rb wb ri wi content,
    ApplyDeviceIOLimits_of_read fs cgroupPath d content rb wb ri wi hread, ?_, hlines, ?_, ?_,
    ?_, ?_⟩
  · intro he
    exact hlines [] (by rw [he]; simp [Split]) rfl
  · rintro ⟨s, t, hst⟩
    have hmem := nil_mem_tail_Split s ('\n' :: t) '\n' (Or.inr ⟨t, rfl⟩)
    have heq : s ++ '\n' :: '\n' :: t = mergedContent d rb wb ri wi content := by
      rw [← hst]; simp
    rw [heq] at hmem
    exact hlines [] (List.mem_of_mem_tail hmem) rfl
  · intro hh
    cases hw : mergedContent d rb wb ri wi content with
    | nil => rw [hw] at hh; simp at hh
    | cons c cs =>
      rw [hw] at hh
      have hc : c = '\n' := by simpa using hh
      have hmem : [] ∈ Split (mergedContent d rb wb ri wi content) '\n' := by
        rw [hw, hc]
        simp [Split]
      exact hlines [] hmem rfl
  · intro hl
    obtain ⟨ys, hys⟩ := List.getLast?_eq_some_iff.1 hl
    have hmem := nil_mem_tail_Split ys [] '\n' (Or.inl rfl)
    rw [← hys] at hmem
    exact hlines [] (List.mem_of_mem_tail hmem) rfl
  · intro l hl
    rw [hsplit, mergedLines_eq] at hl
    rcases List.mem_append.1 hl with h | h
    · obtain ⟨l0, hl0, rfl⟩ := List.mem_map.1 h
      have h0 := List.mem_filter.1 hl0
      unfold replaceLine
      split_ifs
      · exact Or.inl rfl
      · exact Or.inr ⟨h0.1, by simpa using h0.2⟩
    · split_ifs at h
      · exact absurd h (List.not_mem_nil _)
      · exact Or.inl (List.mem_singleton.1 h)

/-- Witness of C17: a content with a blank line in the middle and a final newline. -/
theorem written_content_has_no_blank_line_witness :
    '\n' ∉ "8:0".toList ∧
    ∃ written,
      ApplyDeviceIOLimits (exampleFS 2048 "9:0 rbps=1\n\n8:0 rbps=2\n".toList)
          "/sys/fs/cgroup/demo".toList "8:0".toList 5 6 7 8 =
        WriteFile (exampleFS 2048 "9:0 rbps=1\n\n8:0 rbps=2\n".toList)
          "/sys/fs/cgroup/demo".toList written ∧
      written ≠ [] ∧
      (∀ l ∈ Split written '\n', l ≠ []) ∧
      ¬ (['\n', '\n'] <:+: written) ∧
      written.head? ≠ some '\n' ∧
      written.getLast? ≠ some '\n' ∧
      (∀ l ∈ Split written '\n',
        l = newLimit "8:0".toList 5 6 7 8 ∨
          (l ∈ Split "9:0 rbps=1\n\n8:0 rbps=2\n".toList '\n' ∧ l ≠ [])) :=
  ⟨by decide,
    written_content_has_no_blank_line (exampleFS 2048 "9:0 rbps=1\n\n8:0 rbps=2\n".toList)
      "/sys/fs/cgroup/demo".toList "8:0".toList "9:0 rbps=1\n\n8:0 rbps=2\n".toList 5 6 7 8 rfl
      (by decide)⟩

/-- C18: merges for two different devices commute when one of them already has a line.
For every file system and io.max content and every two distinct device identifiers a
and b that are non-empty strings without white space (as "major:minor" is), one of them
the first field of some line of the content, ApplyDeviceIOLimits for a and then for b
returns the same result and leaves the same file system, hence the same io.max
content, as ApplyDeviceIOLimits for b and then for a. -/
theorem apply_device_commute (fs : FileSystem) (cgroupPath content a b : Str)
    (rba wba ria wia rbb wbb rib wib : Int)
    (hread : fs.ioMax cgroupPath = some content)
    (ha : a ≠ []) (hnsa : ∀ c ∈ a, isSpace c = false)
    (hb : b ≠ []) (hnsb : ∀ c ∈ b, isSpace c = false) (hab : a ≠ b)
    (hpresent : (∃ line ∈ Split content '\n', firstFieldIs a line = true) ∨
      (∃ line ∈ Split content '\n', firstFieldIs b line = true)) :
    ApplyDeviceIOLimits (ApplyDeviceIOLimits fs cgroupPath a rba wba ria wia).2 cgroupPath b
        rbb wbb rib wib =
      ApplyDeviceIOLimits (ApplyDeviceIOLimits fs cgroupPath b rbb wbb rib wib).2 cgroupPath a
        rba wba ria wia ∧
    mergedContent b rbb wbb rib wib (mergedContent a rba wba ria wia content) =
      mergedContent a rba wba ria wia (mergedContent b rbb wbb rib wib content) := by
  have hp : (nonEmptyLines content).any (firstFieldIs a) = true ∨
      (nonEmptyLines content).any (firstFieldIs b) = true := by
    rcases hpresent with h | h
    · exact Or.inl ((any_nonEmptyLines_iff a content).2 h)
    · exact Or.inr ((any_nonEmptyLines_iff b content).2 h)
  have hcomm := mergedContent_comm a b rba wba ria wia rbb wbb rib wib content ha hnsa hb hnsb
    hab hp
  refine ⟨?_, hcomm⟩
  rw [ApplyDeviceIOLimits_twice fs cgroupPath content a b rba wba ria wia rbb wbb rib wib hread,
    ApplyDeviceIOLimits_twice fs cgroupPath content b a rbb wbb rib wib rba wba ria wia hread,
    hcomm]

/-- Witness of C18: "8:0" has a line in the example content and "253:1" has none. -/
theorem apply_device_commute_witness :
    ("8:0".toList ≠ [] ∧ (∀ c ∈ "8:0".toList, isSpace c = false) ∧
      "253:1".toList ≠ [] ∧ (∀ c ∈ "253:1".toList, isSpace c = false) ∧
      "8:0".toList ≠ "253:1".toList ∧
      ∃ line ∈ Split exampleContent '\n', firstFieldIs "8:0".toList line = true) ∧
    ApplyDeviceIOLimits
        (ApplyDeviceIOLimits (exampleFS 2048 exampleContent) "/sys/fs/cgroup/demo".toList
          "8:0".toList 1 2 3 4).2
        "/sys/fs/cgroup/demo".toList "253:1".toList 5 6 7 8 =
      ApplyDeviceIOLimits
        (ApplyDeviceIOLimits (exampleFS 2048 exampleContent) "/sys/fs/cgroup/demo".toList
          "253:1".toList 5 6 7 8).2
        "/sys/fs/cgroup/demo".toList "8:0".toList 1 2 3 4 ∧
    mergedContent "253:1".toList 5 6 7 8 (mergedContent "8:0".toList 1 2 3 4 exampleContent) =
      mergedContent "8:0".toList 1 2 3 4 (mergedContent "253:1".toList 5 6 7 8 exampleContent) :=
  ⟨by decide,
    apply_device_commute (exampleFS 2048 exampleContent) "/sys/fs/cgroup/demo".toList
      exampleContent "8:0".toList "253:1".toList 1 2 3 4 5 6 7 8 rfl
      (by decide) (by decide) (by decide) (by decide) (by decide) (Or.inl (by decide))⟩

/-- C11: for every quantity string made of decimal digits followed by a recognized
suffix (k = 10^3, M = 10^6, G = 10^9, Ki = 2^10, Mi = 2^20, Gi = 2^30, no suffix = 1),
ParseValue returns the number written before the suffix multiplied by the multiplier of
the suffix, and no error, whenever that product fits a signed 64-bit integer: "1000"
gives 1000, "10k" gives 10000, "5M" gives 5000000 and "1G" gives 1000000000. The
quantity parser is the one of the spec, or any parser that agrees with it on the
string. -/
theorem parse_value_scaled (parseQuantity : QuantityParser) (num suffix : Str) (m : Nat)
    (hnum : num ≠ []) (hdigits : ∀ c ∈ num, c.isDigit = true)
    (hsuffix : suffixMultiplier suffix = some m)
    (hfit : ((digitsValue num : Int) * (m : Int)) ≤ MaxInt64Value)
    (hpq : parseQuantity (num ++ suffix) = specQuantity (num ++ suffix)) :
    ParseValue parseQuantity (num ++ suffix) = (((digitsValue num * m : Nat) : Int), none) ∧
    ParseValue specQuantity (num ++ suffix) = (((digitsValue num * m : Nat) : Int), none) ∧
    (suffixMultiplier [] = some 1 ∧ suffixMultiplier "k".toList = some (10 ^ 3) ∧
      suffixMultiplier "M".toList = some (10 ^ 6) ∧ suffixMultiplier "G".toList = some (10 ^ 9) ∧
      suffixMultiplier "Ki".toList = some (2 ^ 10) ∧
      suffixMultiplier "Mi".toList = some (2 ^ 20) ∧
      suffixMultiplier "Gi".toList = some (2 ^ 30)) ∧
    (ParseValue specQuantity "1000".toList = (1000, none) ∧
      ParseValue specQuantity "10k".toList = (10000, none) ∧
      ParseValue specQuantity "5M".toList = (5000000, none) ∧
      ParseValue specQuantity "1G".toList = (1000000000, none)) := by
  have hspec := specQuantity_scaled num suffix m hnum hdigits hsuffix hfit
  have hboth : ∀ pq : QuantityParser, pq (num ++ suffix) = specQuantity (num ++ suffix) →
      ParseValue pq (num ++ suffix) = (((digitsValue num * m : Nat) : Int), none) := by
    intro pq hq
    cases num with
    | nil => exact absurd rfl hnum
    | cons c cs =>
      have hc : c.isDigit = true := hdigits c (List.mem_cons_self _ _)
      have hns : ∀ x ∈ c :: (cs ++ suffix), isSpace x = false := by
        intro x hx
        rw [← List.cons_append] at hx
        rcases List.mem_append.1 hx with h | h
        · exact isSpace_of_isDigit x (hdigits x h)
        · exact (suffix_not_digit suffix m hsuffix).2.2 x h
      exact ParseValue_of_digit_head pq c (cs ++ suffix) _ hc hns (by rw [← hspec]; exact hq)
  exact ⟨hboth parseQuantity hpq, hboth specQuantity rfl, by decide, by decide⟩

/-- Witness of C11: the string "10k", digits "10" and suffix "k". -/
theorem parse_value_scaled_witness :
    ("10".toList ≠ [] ∧ (∀ c ∈ "10".toList, c.isDigit = true) ∧
      suffixMultiplier "k".toList = some 1000 ∧
      ((digitsValue "10".toList : Int) * ((1000 : Nat) : Int)) ≤ MaxInt64Value) ∧
    ParseValue specQuantity ("10".toList ++ "k".toList) =
      (((digitsValue "10".toList * 1000 : Nat) : Int), none) :=
  ⟨by decide,
    (parse_value_scaled specQuantity "10".toList "k".toList 1000 (by decide) (by decide)
      (by decide) (by decide) rfl).1⟩

/-- C12: for every path that can be statted, with raw device number r, GetDeviceNumbers
returns the decimal representation of r shifted right by 8 bits, a colon, and the
decimal representation of r masked with 0xFF, which are r / 256 and r mod 256. So for
major < 2^56 and minor < 256 the device number major * 256 + minor, which fits 64 bits,
yields "major:minor" (2048 yields "8:0"), and the two numbers written give
major * 256 + minor back. -/
theorem device_numbers_format :
    (∀ (fs : FileSystem) (devicePath : Str) (r : Nat), fs.stat devicePath = StatResult.info r →
      GetDeviceNumbers fs devicePath =
        (formatNat (r >>> 8) ++ ":".toList ++ formatNat (r &&& 0xFF), none)) ∧
    (∀ r : Nat, r >>> 8 = r / 256 ∧ r &&& 0xFF = r % 256 ∧
      digitsValue (formatNat (r >>> 8)) * 256 + digitsValue (formatNat (r &&& 0xFF)) = r) ∧
    (∀ (fs : FileSystem) (devicePath : Str) (major minor : Nat),
      major < 2 ^ 56 → minor < 256 →
      fs.stat devicePath = StatResult.info (major * 256 + minor) →
      major * 256 + minor < 2 ^ 64 ∧
      GetDeviceNumbers fs devicePath =
        (formatNat major ++ ":".toList ++ formatNat minor, none) ∧
      digitsValue (formatNat major) * 256 + digitsValue (formatNat minor) =
        major * 256 + minor) ∧
    (∀ (fs : FileSystem) (devicePath : Str), fs.stat devicePath = StatResult.info 2048 →
      GetDeviceNumbers fs devicePath = ("8:0".toList, none)) := by
  have hshift : ∀ r : Nat, r >>> 8 = r / 256 := fun r => by
    rw [Nat.shiftRight_eq_div_pow]
  have hmask : ∀ r : Nat, r &&& 0xFF = r % 256 := fun r =>
    Nat.and_pow_two_sub_one_eq_mod r 8
  have hget : ∀ (fs : FileSystem) (devicePath : Str) (r : Nat),
      fs.stat devicePath = StatResult.info r →
      GetDeviceNumbers fs devicePath =
        (formatNat (r >>> 8) ++ ":".toList ++ formatNat (r &&& 0xFF), none) := by
    intro fs devicePath r h
    simp only [GetDeviceNumbers, h]
  refine ⟨hget, ?_, ?_, ?_⟩
  · intro r
    refine ⟨hshift r, hmask r, ?_⟩
    rw [digitsValue_formatNat, digitsValue_formatNat, hshift, hmask]
    omega
  · intro fs devicePath major minor hmajor hminor h
    have h1 : (major * 256 + minor) >>> 8 = major := by rw [hshift]; omega
    have h2 : (major * 256 + minor) &&& 0xFF = minor := by rw [hmask]; omega
    refine ⟨by omega, ?_, ?_⟩
    · rw [hget fs devicePath _ h, h1, h2]
    · rw [digitsValue_formatNat, digitsValue_formatNat]
  · intro fs devicePath h
    rw [hget fs devicePath 2048 h]
    decide

/-- C13: for every configuration and every file system in which the cgroup path does
not exist, ApplyIOLimits returns the error "cgroup path does not exist" and the file
system it leaves is the one it found: nothing is written, and the outcome depends on no
device and on no control file. -/
theorem missing_cgroup_fails_untouched (parseQuantity : QuantityParser) (fs : FileSystem)
    (cgroupPath : Str) (config : Config) (h : fs.stat cgroupPath = StatResult.notExist) :
    ApplyIOLimits parseQuantity fs cgroupPath config =
      (some (Error.cgroupMissing cgroupPath), fs) := by
  simp only [ApplyIOLimits, h, if_true]

/-- Witness of C13: a file system in which no path exists, and the example configuration. -/
theorem missing_cgroup_fails_untouched_witness :
    ApplyIOLimits specQuantity
        { stat := fun _ => StatResult.notExist, ioMax := fun _ => none,
          ioMaxWritable := fun _ => false }
        "/sys/fs/cgroup/none".toList exampleConfig =
      (some (Error.cgroupMissing "/sys/fs/cgroup/none".toList),
        { stat := fun _ => StatResult.notExist, ioMax := fun _ => none,
          ioMaxWritable := fun _ => false }) :=
  missing_cgroup_fails_untouched specQuantity
    { stat := fun _ => StatResult.notExist, ioMax := fun _ => none,
      ioMaxWritable := fun _ => false }
    "/sys/fs/cgroup/none".toList exampleConfig rfl

/-- C19: formatting and parsing a limit value round-trip. For every value v with
0 <= v <= MaxInt64Value, ParseValue on formatMaxOrValue v succeeds and returns v;
MaxInt64Value is written "max" and read back as MaxInt64Value. The quantity parser is
any parser that reads the decimal representation of a number below MaxInt64Value as
that number, as the parser of the spec does. -/
theorem format_parse_round_trip (parseQuantity : QuantityParser) (v : Int)
    (h0 : 0 ≤ v) (hmax : v ≤ MaxInt64Value)
    (hpq : ∀ n : Nat, (n : Int) < MaxInt64Value → parseQuantity (formatNat n) = some (n : Int)) :
    ParseValue parseQuantity (formatMaxOrValue v) = (v, none) ∧
    formatMaxOrValue MaxInt64Value = "max".toList ∧
    ParseValue parseQuantity "max".toList = (MaxInt64Value, none) := by
  have hmaxstr : ParseValue parseQuantity "max".toList = (MaxInt64Value, none) := by
    have ht : TrimSpace "max".toList = "max".toList := by decide
    have h1 : EqualFold "max".toList "max".toList = true := by decide
    have h3 : "max".toList ≠ [] := by decide
    simp only [ParseValue, ht, h1, if_neg h3, Bool.true_or, if_true]
  refine ⟨?_, by decide, hmaxstr⟩
  by_cases hv : v = MaxInt64Value
  · rw [hv]
    have : formatMaxOrValue MaxInt64Value = "max".toList := by decide
    rw [this]
    exact hmaxstr
  · obtain ⟨n, rfl⟩ := Int.eq_ofNat_of_zero_le h0
    have hlt : (n : Int) < MaxInt64Value := lt_of_le_of_ne hmax hv
    have hfmt : formatMaxOrValue (n : Int) = formatNat n := by
      unfold formatMaxOrValue
      rw [if_neg hv]
      rfl
    rw [hfmt]
    cases hs : formatNat n with
    | nil => exact absurd hs (formatNat_ne_nil n)
    | cons c cs =>
      have hdig : ∀ x ∈ c :: cs, x.isDigit = true := by
        rw [← hs]; exact formatNat_isDigit n
      exact ParseValue_of_digit_head parseQuantity c cs n (hdig c (List.mem_cons_self _ _))
        (fun x hx => isSpace_of_isDigit x (hdig x hx)) (by rw [← hs]; exact hpq n hlt)

/-- Witness of C19: the value 50000000 with the quantity parser of the spec. -/
theorem format_parse_round_trip_witness :
    ((0 : Int) ≤ 50000000 ∧ (50000000 : Int) ≤ MaxInt64Value) ∧
    ParseValue specQuantity (formatMaxOrValue 50000000) = (50000000, none) ∧
    formatMaxOrValue MaxInt64Value = "max".toList ∧
    ParseValue specQuantity "max".toList = (MaxInt64Value, none) :=
  ⟨by decide,
    format_parse_round_trip specQuantity 50000000 (by decide) (by decide)
      specQuantity_formatNat⟩

/-- C20: ParseConfig defaults only throttle fields that are exactly empty and does not
validate throttle values. The configuration with one entry, a non-empty device list and
ThrottleReadBps equal to a single space is accepted; the returned Config has "max" in
the three omitted fields and keeps the space; ParseValue fails on it with the value 0
for every quantity parser; and ApplyIOLimits on the returned Config fails with the
error of parsing ThrottleReadBps, without writing, whenever the cgroup path exists and
the device can be statted. -/
theorem parsed_config_can_fail_on_values :
    ParseConfig (some { Classes := [("example".toList,
        [{ Devices := ["/dev/sda".toList], ThrottleReadIOPS := [], ThrottleWriteIOPS := [],
           ThrottleReadBps := " ".toList, ThrottleWriteBps := [] }])] }) =
      Except.ok { Classes := [("example".toList,
        [{ Devices := ["/dev/sda".toList], ThrottleReadIOPS := "max".toList,
           ThrottleWriteIOPS := "max".toList, ThrottleReadBps := " ".toList,
           ThrottleWriteBps := "max".toList }])] } ∧
    (∀ parseQuantity : QuantityParser,
      ParseValue parseQuantity " ".toList = (0, some Error.emptyValue)) ∧
    (∀ (parseQuantity : QuantityParser) (fs : FileSystem) (cgroupPath : Str) (r : Nat),
      fs.stat cgroupPath ≠ StatResult.notExist →
      fs.stat "/dev/sda".toList = StatResult.info r →
      ApplyIOLimits parseQuantity fs cgroupPath
          { Classes := [("example".toList,
            [{ Devices := ["/dev/sda".toList], ThrottleReadIOPS := "max".toList,
               ThrottleWriteIOPS := "max".toList, ThrottleReadBps := " ".toList,
               ThrottleWriteBps := "max".toList }])] } =
        (some (Error.throttleField "ThrottleReadBps".toList "example".toList 0
          Error.emptyValue), fs)) := by
  have hparse : ∀ parseQuantity : QuantityParser,
      ParseValue parseQuantity " ".toList = (0, some Error.emptyValue) := by
    intro parseQuantity
    have ht : TrimSpace " ".toList = [] := by decide
    simp only [ParseValue, ht, if_true]
  refine ⟨rfl, hparse, ?_⟩
  intro parseQuantity fs cgroupPath r hcg hdev
  simp only [ApplyIOLimits, if_neg hcg, applyClasses, applyQuotas, applyDevices, GetDeviceNumbers,
    hdev, hparse]

/-- Witness of C20: the example file system, where the cgroup path and the device exist. -/
theorem parsed_config_can_fail_on_values_witness :
    ApplyIOLimits specQuantity (exampleFS 2048 exampleContent) "/sys/fs/cgroup/demo".toList
        { Classes := [("example".toList,
          [{ Devices := ["/dev/sda".toList], ThrottleReadIOPS := "max".toList,
             ThrottleWriteIOPS := "max".toList, ThrottleReadBps := " ".toList,
             ThrottleWriteBps := "max".toList }])] } =
      (some (Error.throttleField "ThrottleReadBps".toList "example".toList 0
        Error.emptyValue), exampleFS 2048 exampleContent) :=
  parsed_config_can_fail_on_values.2.2 specQuantity (exampleFS 2048 exampleContent)
    "/sys/fs/cgroup/demo".toList 2048 (by decide) rfl

/-- C14: for a configuration with a single class and an existing cgroup path,
ApplyIOLimits is the left-to-right fold of ApplyDeviceIOLimits over the devices in
declaration order (entries in order, devices of an entry in order) that stops at the
first failure. On a readable and writable io.max: when the limits of the first k
devices resolve (the device resolves, the four throttle values of its entry parse) and
the next one does not, ApplyIOLimits returns that error and io.max holds the merge of
the first k limits, in order, into the original content, the later devices not being
applied; when all resolve it returns no error and io.max holds the merge of all. -/
theorem apply_is_fold_over_devices (parseQuantity : QuantityParser) (fs : FileSystem)
    (cgroupPath className : Str) (quotaConfigs : List QuotaConfig)
    (hcg : fs.stat cgroupPath ≠ StatResult.notExist) :
    ApplyIOLimits parseQuantity fs cgroupPath { Classes := [(className, quotaConfigs)] } =
      foldSteps parseQuantity cgroupPath className (deviceSteps 0 quotaConfigs) fs ∧
    ∀ content, fs.ioMax cgroupPath = some content → fs.ioMaxWritable cgroupPath = true →
      (∀ pre step post limits err,
        deviceSteps 0 quotaConfigs = pre ++ step :: post →
        List.Forall₂ (fun s l => resolveLimit parseQuantity fs className s = Except.ok l)
          pre limits →
        resolveLimit parseQuantity fs className step = Except.error err →
        ApplyIOLimits parseQuantity fs cgroupPath { Classes := [(className, quotaConfigs)] } =
            (some err, setIoMax fs cgroupPath (mergeAll limits content)) ∧
          (setIoMax fs cgroupPath (mergeAll limits content)).ioMax cgroupPath =
            some (mergeAll limits content)) ∧
      (∀ limits,
        List.Forall₂ (fun s l => resolveLimit parseQuantity fs className s = Except.ok l)
          (deviceSteps 0 quotaConfigs) limits →
        ApplyIOLimits parseQuantity fs cgroupPath { Classes := [(className, quotaConfigs)] } =
            (none, setIoMax fs cgroupPath (mergeAll limits content)) ∧
          (setIoMax fs cgroupPath (mergeAll limits content)).ioMax cgroupPath =
            some (mergeAll limits content)) := by
  have hfold : ApplyIOLimits parseQuantity fs cgroupPath
      { Classes := [(className, quotaConfigs)] } =
      foldSteps parseQuantity cgroupPath className (deviceSteps 0 quotaConfigs) fs := by
    simp only [ApplyIOLimits, if_neg hcg, applyClasses, applyQuotas_eq_foldSteps]
    rcases foldSteps parseQuantity cgroupPath className (deviceSteps 0 quotaConfigs) fs with
      ⟨_ | e, fs1⟩ <;> rfl
  refine ⟨hfold, ?_⟩
  intro content hread hwrite
  constructor
  · intro pre step post limits err hsteps hres hfail
    refine ⟨?_, by simp [setIoMax]⟩
    rw [hfold, hsteps]
    exact foldSteps_first_failure parseQuantity cgroupPath className pre post step limits err fs
      content hread hwrite hres hfail
  · intro limits hres
    refine ⟨?_, by simp [setIoMax]⟩
    rw [hfold]
    exact foldSteps_resolved parseQuantity cgroupPath className _ limits fs content hread hwrite
      hres

/-- Witness of C14: the example configuration on the example file system. -/
theorem apply_is_fold_over_devices_witness :
    (exampleFS 2048 exampleContent).stat "/sys/fs/cgroup/demo".toList ≠ StatResult.notExist ∧
    ApplyIOLimits specQuantity (exampleFS 2048 exampleContent) "/sys/fs/cgroup/demo".toList
        { Classes := [exampleClass "example".toList "/dev/sda".toList "50M".toList] } =
      foldSteps specQuantity "/sys/fs/cgroup/demo".toList "example".toList
        (deviceSteps 0 (exampleClass "example".toList "/dev/sda".toList "50M".toList).2)
        (exampleFS 2048 exampleContent) :=
  ⟨by decide,
    (apply_is_fold_over_devices specQuantity (exampleFS 2048 exampleContent)
      "/sys/fs/cgroup/demo".toList "example".toList
      (exampleClass "example".toList "/dev/sda".toList "50M".toList).2 (by decide)).1⟩

/-- C15, as the spec states it, fails: the order of the classes is significant. Two
classes that limit the same device to different values leave the value of the class
applied last, and two classes for two devices that have no line yet leave their lines
in the order of application; these configurations are accepted by ParseConfig and
applied without error. And when a throttle value of one class does not parse, the other
class is applied only if it comes first. -/
theorem class_order_is_significant :
    (ParseConfig (some { Classes :=
        [exampleClass "a".toList "/dev/sda".toList "1M".toList,
          exampleClass "b".toList "/dev/sda".toList "2M".toList] }) =
      Except.ok { Classes :=
        [exampleClass "a".toList "/dev/sda".toList "1M".toList,
          exampleClass "b".toList "/dev/sda".toList "2M".toList] }) ∧
    (ApplyIOLimits specQuantity
        (twoDeviceFS "8:0 rbps=max wbps=max riops=max wiops=max\n".toList)
        "/sys/fs/cgroup/demo".toList
        { Classes := [exampleClass "a".toList "/dev/sda".toList "1M".toList,
            exampleClass "b".toList "/dev/sda".toList "2M".toList] }).1 = none ∧
    (ApplyIOLimits specQuantity
        (twoDeviceFS "8:0 rbps=max wbps=max riops=max wiops=max\n".toList)
        "/sys/fs/cgroup/demo".toList
        { Classes := [exampleClass "a".toList "/dev/sda".toList "1M".toList,
            exampleClass "b".toList "/dev/sda".toList "2M".toList] }).2.ioMax
          "/sys/fs/cgroup/demo".toList =
      some "8:0 rbps=2000000 wbps=max riops=max wiops=max".toList ∧
    (ApplyIOLimits specQuantity
        (twoDeviceFS "8:0 rbps=max wbps=max riops=max wiops=max\n".toList)
        "/sys/fs/cgroup/demo".toList
        { Classes := [exampleClass "b".toList "/dev/sda".toList "2M".toList,
            exampleClass "a".toList "/dev/sda".toList "1M".toList] }).1 = none ∧
    (ApplyIOLimits specQuantity
        (twoDeviceFS "8:0 rbps=max wbps=max riops=max wiops=max\n".toList)
        "/sys/fs/cgroup/demo".toList
        { Classes := [exampleClass "b".toList "/dev/sda".toList "2M".toList,
            exampleClass "a".toList "/dev/sda".toList "1M".toList] }).2.ioMax
          "/sys/fs/cgroup/demo".toList =
      some "8:0 rbps=1000000 wbps=max riops=max wiops=max".toList ∧
    (ApplyIOLimits specQuantity (twoDeviceFS []) "/sys/fs/cgroup/demo".toList
        { Classes := [exampleClass "a".toList "/dev/sda".toList "1M".toList,
            exampleClass "b".toList "/dev/sdb".toList "2M".toList] }).2.ioMax
          "/sys/fs/cgroup/demo".toList =
      some ("8:0 rbps=1000000 wbps=max riops=max wiops=max\n" ++
        "8:16 rbps=2000000 wbps=max riops=max wiops=max").toList ∧
    (ApplyIOLimits specQuantity (twoDeviceFS []) "/sys/fs/cgroup/demo".toList
        { Classes := [exampleClass "b".toList "/dev/sdb".toList "2M".toList,
            exampleClass "a".toList "/dev/sda".toList "1M".toList] }).2.ioMax
          "/sys/fs/cgroup/demo".toList =
      some ("8:16 rbps=2000000 wbps=max riops=max wiops=max\n" ++
        "8:0 rbps=1000000 wbps=max riops=max wiops=max").toList ∧
    (ApplyIOLimits specQuantity (twoDeviceFS "8:0 rbps=1\n8:16 rbps=2\n".toList)
        "/sys/fs/cgroup/demo".toList
        { Classes := [exampleClass "a".toList "/dev/sda".toList "10X".toList,
            exampleClass "b".toList "/dev/sdb".toList "2M".toList] }).2.ioMax
          "/sys/fs/cgroup/demo".toList =
      some "8:0 rbps=1\n8:16 rbps=2\n".toList ∧
    (ApplyIOLimits specQuantity (twoDeviceFS "8:0 rbps=1\n8:16 rbps=2\n".toList)
        "/sys/fs/cgroup/demo".toList
        { Classes := [exampleClass "b".toList "/dev/sdb".toList "2M".toList,
            exampleClass "a".toList "/dev/sda".toList "10X".toList] }).2.ioMax
          "/sys/fs/cgroup/demo".toList =
      some ("8:0 rbps=1\n" ++ "8:16 rbps=2000000 wbps=max riops=max wiops=max").toList ∧
    (ApplyIOLimits specQuantity
        (twoDeviceFS "8:0 rbps=max wbps=max riops=max wiops=max\n".toList)
        "/sys/fs/cgroup/demo".toList
        { Classes := [exampleClass "a".toList "/dev/sda".toList "1M".toList,
            exampleClass "b".toList "/dev/sda".toList "2M".toList] }).2.ioMax
          "/sys/fs/cgroup/demo".toList ≠
      (ApplyIOLimits specQuantity
        (twoDeviceFS "8:0 rbps=max wbps=max riops=max wiops=max\n".toList)
        "/sys/fs/cgroup/demo".toList
        { Classes := [exampleClass "b".toList "/dev/sda".toList "2M".toList,
            exampleClass "a".toList "/dev/sda".toList "1M".toList] }).2.ioMax
          "/sys/fs/cgroup/demo".toList := by
  refine ⟨rfl, ?_, ?_, ?_, ?_, ?_, ?_, ?_, ?_, ?_⟩ <;> decide

/-- C15, amended: for every initial io.max content and every configuration with two
classes A and B in which every device resolves and every throttle value parses, no
device identifier of A is one of B, and every device identifier of A, or every one of
B, already has a line in the content, applying A and then B returns no error and
leaves the same file system, hence the same io.max content, as applying B and then A:
the merge of the limits of both classes. The cgroup path exists and io.max is readable
and writable. -/
theorem class_order_irrelevant_when_disjoint (parseQuantity : QuantityParser)
    (fs : FileSystem) (cgroupPath content nameA nameB : Str)
    (quotasA quotasB : List QuotaConfig) (limitsA limitsB : List Limit)
    (hcg : fs.stat cgroupPath ≠ StatResult.notExist)
    (hread : fs.ioMax cgroupPath = some content)
    (hwrite : fs.ioMaxWritable cgroupPath = true)
    (hA : List.Forall₂ (fun s l => resolveLimit parseQuantity fs nameA s = Except.ok l)
      (deviceSteps 0 quotasA) limitsA)
    (hB : List.Forall₂ (fun s l => resolveLimit parseQuantity fs nameB s = Except.ok l)
      (deviceSteps 0 quotasB) limitsB)
    (hdisj : ∀ a ∈ limitsA, ∀ b ∈ limitsB, a.deviceNumbers ≠ b.deviceNumbers)
    (hpresent :
      (∀ a ∈ limitsA, ∃ line ∈ Split content '\n', firstFieldIs a.deviceNumbers line = true) ∨
      (∀ b ∈ limitsB, ∃ line ∈ Split content '\n', firstFieldIs b.deviceNumbers line = true)) :
    ApplyIOLimits parseQuantity fs cgroupPath
        { Classes := [(nameA, quotasA), (nameB, quotasB)] } =
      (none, setIoMax fs cgroupPath (mergeAll (limitsA ++ limitsB) content)) ∧
    ApplyIOLimits parseQuantity fs cgroupPath
        { Classes := [(nameB, quotasB), (nameA, quotasA)] } =
      ApplyIOLimits parseQuantity fs cgroupPath
        { Classes := [(nameA, quotasA), (nameB, quotasB)] } ∧
    (setIoMax fs cgroupPath (mergeAll (limitsA ++ limitsB) content)).ioMax cgroupPath =
      some (mergeAll (limitsA ++ limitsB) content) := by
  have htokA := forall₂_resolveLimit_token parseQuantity fs nameA _ limitsA hA
  have htokB := forall₂_resolveLimit_token parseQuantity fs nameB _ limitsB hB
  have hpair : ∀ a ∈ limitsA, ∀ b ∈ limitsB,
      (nonEmptyLines content).any (firstFieldIs a.deviceNumbers) = true ∨
      (nonEmptyLines content).any (firstFieldIs b.deviceNumbers) = true := by
    intro a ha b hb
    rcases hpresent with h | h
    · exact Or.inl ((any_nonEmptyLines_iff _ content).2 (h a ha))
    · exact Or.inr ((any_nonEmptyLines_iff _ content).2 (h b hb))
  have hcomm := mergeAll_append_comm limitsA limitsB content htokA htokB hdisj hpair
  have hAB : ApplyIOLimits parseQuantity fs cgroupPath
      { Classes := [(nameA, quotasA), (nameB, quotasB)] } =
      (none, setIoMax fs cgroupPath (mergeAll (limitsA ++ limitsB) content)) := by
    simp only [ApplyIOLimits, if_neg hcg]
    exact applyClasses_two_resolved parseQuantity cgroupPath nameA nameB quotasA quotasB limitsA
      limitsB fs content hread hwrite hA hB
  have hBA : ApplyIOLimits parseQuantity fs cgroupPath
      { Classes := [(nameB, quotasB), (nameA, quotasA)] } =
      (none, setIoMax fs cgroupPath (mergeAll (limitsB ++ limitsA) content)) := by
    simp only [ApplyIOLimits, if_neg hcg]
    exact applyClasses_two_resolved parseQuantity cgroupPath nameB nameA quotasB quotasA limitsB
      limitsA fs content hread hwrite hB hA
  refine ⟨hAB, ?_, by simp [setIoMax]⟩
  rw [hAB, hBA, hcomm]

/-- Witness of C15, amended: class "a" limits "/dev/sda" (8:0, which has a line) and
class "b" limits "/dev/sdb" (8:16, which has none). -/
theorem class_order_irrelevant_when_disjoint_witness :
    ApplyIOLimits specQuantity
        (twoDeviceFS "8:0 rbps=max wbps=max riops=max wiops=max\n".toList)
        "/sys/fs/cgroup/demo".toList
        { Classes := [exampleClass "b".toList "/dev/sdb".toList "2M".toList,
            exampleClass "a".toList "/dev/sda".toList "1M".toList] } =
      ApplyIOLimits specQuantity
        (twoDeviceFS "8:0 rbps=max wbps=max riops=max wiops=max\n".toList)
        "/sys/fs/cgroup/demo".toList
        { Classes := [exampleClass "a".toList "/dev/sda".toList "1M".toList,
            exampleClass "b".toList "/dev/sdb".toList "2M".toList] } :=
  (class_order_irrelevant_when_disjoint specQuantity
    (twoDeviceFS "8:0 rbps=max wbps=max riops=max wiops=max\n".toList)
    "/sys/fs/cgroup/demo".toList "8:0 rbps=max wbps=max riops=max wiops=max\n".toList
    "a".toList "b".toList
    (exampleClass "a".toList "/dev/sda".toList "1M".toList).2
    (exampleClass "b".toList "/dev/sdb".toList "2M".toList).2
    [{ deviceNumbers := "8:0".toList, readBps := 1000000, writeBps := MaxInt64Value,
       readIOPS := MaxInt64Value, writeIOPS := MaxInt64Value }]
    [{ deviceNumbers := "8:16".toList, readBps := 2000000, writeBps := MaxInt64Value,
       readIOPS := MaxInt64Value, writeIOPS := MaxInt64Value }]
    (by decide) rfl rfl
    (List.Forall₂.cons rfl List.Forall₂.nil)
    (List.Forall₂.cons rfl List.Forall₂.nil)
    (by decide) (Or.inl (by decide))).2.1

end Cgroup2io
